import Mathlib

/-!
Verification development for the SAW (Simple Additive Weighting) decision
engine of this repository.  The embedding covers:

* `src/api/services/saw_algorithm.py` — class `SAWService`: input validation,
  IQR outlier capping, the three normalization methods, weighted scoring and
  post-processing (stable descending sort, dense ranks, percentages);
* `src/api/services/analytics.py` — class `AnalyticsService`: the weight
  sensitivity sweep, per-variation metrics and the stability score;
* `src/models/decision.py` — classes `DataNormalizer` and `SAWAnalyzer`: the
  second, older SAW implementation.

Numbers are modelled as elements of an arbitrary linear ordered field `K`
with a floor (instantiated at `ℚ` and at `ℝ`); the idealized semantics of
Python floats.  `np.sqrt` is passed in explicitly as a function `sqrt : K → K`
and instantiated with `Real.sqrt` at `K = ℝ`; it is consulted only by the
z-score and vector normalizers.  Python dicts are modelled as ordered
association lists with unique keys (first-match lookup, in-place update);
Python exceptions as `Except String`.  Python `round` (round half to even on
the exact value) is modelled by `pyRound`.  `float` NaN and non-numeric
entries have no counterpart in `K`, so the NaN / non-numeric validation
branches of `_validate_inputs` are vacuous in the model.
-/

set_option linter.unusedSectionVars false

namespace DSS

variable {K : Type*} [LinearOrderedField K] [FloorRing K]

/-! ### String literals used by the source -/

def weightSuffix : String := r"_weight"

def emptyString : String := r""

def costOfLiving : String := r"cost_of_living"

def universityRanking : String := r"university_ranking"

def languageBarrier : String := r"language_barrier"

def visaDifficulty : String := r"visa_difficulty"

def jobProspects : String := r"job_prospects"

def climateScore : String := r"climate_score"

def safetyIndex : String := r"safety_index"

/-! ### Python dict and list primitives -/

/-- First-match lookup in an association list: `d[k]` / `k in d` on a Python
dict (whose keys are unique, so first match is the match). -/
def alookup (k : String) : List (String × α) → Option α
  | [] => none
  | (k', v) :: rest => if k' = k then some v else alookup k rest

/-- Python dict assignment `d[k] = v`: updates the value in place when the key
is present (keeping its position), appends the pair otherwise. -/
def dictInsert (l : List (String × α)) (k : String) (v : α) : List (String × α) :=
  match l with
  | [] => [(k, v)]
  | (k', v') :: rest => if k' = k then (k, v) :: rest else (k', v') :: dictInsert rest k v

/-- Python `max` of a non-empty list (`0` stands in for the empty case, on
which Python raises; every use below is guarded or validated non-empty). -/
def listMax : List K → K
  | [] => 0
  | [x] => x
  | x :: y :: rest => max x (listMax (y :: rest))

/-- Python `min` of a non-empty list (same convention as `listMax`). -/
def listMin : List K → K
  | [] => 0
  | [x] => x
  | x :: y :: rest => min x (listMin (y :: rest))

/-- Python `round(x, d)`: round half to even at `d` decimal digits, on the
exact rational value. -/
def pyRound (d : ℕ) (x : K) : K :=
  let y := x * (10 : K) ^ d
  let f : ℤ := ⌊y⌋
  let r : ℤ :=
    if y - (f : K) < 1 / 2 then f
    else if (1 / 2 : K) < y - (f : K) then f + 1
    else if f % 2 = 0 then f else f + 1
  (r : K) / (10 : K) ^ d

/-- Insertion step of an ascending value sort (used by `np.percentile`, for
which only the resulting sorted order matters). -/
def insertAsc (x : K) : List K → List K
  | [] => [x]
  | y :: ys => if x ≤ y then x :: y :: ys else y :: insertAsc x ys

/-- Ascending sort of a value list, as `np.percentile` performs internally. -/
def sortAsc (l : List K) : List K := l.foldr insertAsc []

/-- Insertion step of the stable descending sort: an element coming earlier in
the input is passed over a later element only when its key is strictly
smaller, so equal keys keep their input order. -/
def insertDescBy (key : α → K) (x : α) : List α → List α
  | [] => [x]
  | y :: ys => if key x < key y then y :: insertDescBy key x ys else x :: y :: ys

/-- Stable descending sort by `key`: the model of Python
`list.sort(key=..., reverse=True)` (Timsort is stable, and `reverse=True`
flips comparisons, not the output, so ties keep input order). -/
def sortDescBy (key : α → K) (l : List α) : List α := l.foldr (insertDescBy key) []

/-! ### `src/models/decision.py` — `CriteriaType`, plus configuration -/

/-- `CriteriaType` of `src/models/decision.py`: BENEFIT (higher is better)
or COST (lower is better). -/
inductive CriteriaType
  | benefit
  | cost
deriving DecidableEq

/-- The three normalization method names accepted by
`SAWService._normalize_data` (an unknown method string raises there; the
inductive makes that branch unrepresentable). -/
inductive NormMethod
  | min_max
  | z_score
  | vector
deriving DecidableEq

/-- `NormalizationConfig` of `src/api/services/saw_algorithm.py`. -/
structure NormalizationConfig where
  method : NormMethod
  criteriaTypes : List (String × CriteriaType)
deriving DecidableEq

/-- The `criteria_types` dict built in `SAWService.__init__` (and, with the
same seven entries, in `SAWAnalyzer.__init__`). -/
def defaultCriteriaTypes : List (String × CriteriaType) :=
  [(costOfLiving, .cost), (universityRanking, .benefit), (languageBarrier, .cost),
   (visaDifficulty, .cost), (jobProspects, .benefit), (climateScore, .benefit),
   (safetyIndex, .benefit)]

/-- `DecisionResult` of `src/models/decision.py`. -/
structure DecisionResult (K : Type*) where
  country : String
  score : K
  rank : ℕ
  percentage : K
  criteriaScores : List (String × K)
deriving DecidableEq

/-- The intermediate per-country record built by
`SAWService._calculate_weighted_scores` before post-processing. -/
structure RawResult (K : Type*) where
  country : String
  score : K
  criteriaScores : List (String × K)
deriving DecidableEq

/-! ### `SAWService` (src/api/services/saw_algorithm.py) -/

/-- `SAWService._validate_inputs`.  The checks appear in source order; the
`isinstance`/NaN branches are vacuous over `K` (see the module comment). -/
def validateInputs (data : List (String × List K)) (weights : List (String × K))
    (countryNames : List String) : Except String Unit :=
  if data = [] then .error (r"Data dictionary cannot be empty")
  else if weights = [] then .error (r"Weights dictionary cannot be empty")
  else if countryNames = [] then .error (r"Country names list cannot be empty")
  else if data.any (fun c => c.2.length ≠ countryNames.length) then
    .error (r"Data length mismatch")
  else if weights.any (fun w => w.2 < 0) then
    .error (r"Weight cannot be negative")
  else if ¬ countryNames.Nodup then .error (r"Duplicate country names found")
  else .ok ()

/-- `np.percentile(values, q)` with the default linear-interpolation method:
sort ascending, take `pos = q/100 · (n−1)`, and interpolate between the two
neighbouring order statistics.  (`np.percentile` raises on an empty list; the
model returns `0` there, and every call site is validated non-empty.) -/
def percentile (values : List K) (q : K) : K :=
  let s := sortAsc values
  let pos := q / 100 * ((values.length : K) - 1)
  let i : ℤ := ⌊pos⌋
  let lo := s.getD i.toNat 0
  let hi := s.getD (i.toNat + 1) lo
  lo + (pos - (i : K)) * (hi - lo)

/-- `SAWService._handle_outliers` with the default `method='iqr'`: cap values
below `Q1 − 1.5·IQR` or above `Q3 + 1.5·IQR` to the bound. -/
def handleOutliers (values : List K) : List K :=
  let q1 := percentile values 25
  let q3 := percentile values 75
  let iqr := q3 - q1
  let lowerBound := q1 - 3 / 2 * iqr
  let upperBound := q3 + 3 / 2 * iqr
  values.map fun v =>
    if v < lowerBound then lowerBound else if upperBound < v then upperBound else v

/-- `SAWService._preprocess_data`: apply outlier capping per criterion. -/
def preprocessData (data : List (String × List K)) : List (String × List K) :=
  data.map fun c => (c.1, handleOutliers c.2)

/-- `SAWService._min_max_normalize`. -/
def minMaxNormalize (values : List K) (ct : CriteriaType) : List K :=
  let minVal := listMin values
  let maxVal := listMax values
  if maxVal = minVal then List.replicate values.length 1
  else if ct = .cost then values.map fun v => (maxVal - v) / (maxVal - minVal)
  else values.map fun v => (v - minVal) / (maxVal - minVal)

/-- `SAWService._z_score_normalize`; `np.mean` is `sum/len` and `np.std` the
population standard deviation, its square root taken by `sqrt`. -/
def zScoreNormalize (sqrt : K → K) (values : List K) (ct : CriteriaType) : List K :=
  let meanVal := values.sum / (values.length : K)
  let stdVal := sqrt ((values.map fun v => (v - meanVal) ^ 2).sum / (values.length : K))
  if stdVal = 0 then List.replicate values.length 1
  else
    let zScores := values.map fun v => (v - meanVal) / stdVal
    let minZ := listMin zScores
    let maxZ := listMax zScores
    if maxZ = minZ then List.replicate values.length 1
    else
      let normalized := zScores.map fun z => (z - minZ) / (maxZ - minZ)
      if ct = .cost then normalized.map fun v => 1 - v else normalized

/-- `SAWService._vector_normalize`. -/
def vectorNormalize (sqrt : K → K) (values : List K) (ct : CriteriaType) : List K :=
  let sumOfSquares := (values.map fun v => v ^ 2).sum
  if sumOfSquares = 0 then List.replicate values.length 1
  else
    let normalized := values.map fun v => v / sqrt sumOfSquares
    if ct = .cost then
      let maxNorm := listMax normalized
      normalized.map fun v => maxNorm - v
    else normalized

/-- `SAWService._normalize_data`: per criterion, look up the criteria type
(absent means BENEFIT, with a logged warning) and dispatch on the method. -/
def normalizeData (sqrt : K → K) (data : List (String × List K))
    (config : NormalizationConfig) : List (String × List K) :=
  data.map fun c =>
    let ct := (alookup c.1 config.criteriaTypes).getD .benefit
    (c.1,
      match config.method with
      | .min_max => minMaxNormalize c.2 ct
      | .z_score => zScoreNormalize sqrt c.2 ct
      | .vector => vectorNormalize sqrt c.2 ct)

/-- The weighted contributions recorded for country `i` by
`SAWService._calculate_weighted_scores`: one entry per criterion whose
`<criterion>_weight` key is present in the weight dict (a missing weight is
only logged and the criterion is skipped). -/
def criterionContribs (normalizedData : List (String × List K))
    (weights : List (String × K)) (i : ℕ) : List (String × K) :=
  normalizedData.filterMap fun c =>
    (alookup (c.1 ++ weightSuffix) weights).map fun w => (c.1, w * c.2.getD i 0)

/-- `SAWService._calculate_weighted_scores` (Python indexing `norm_values[i]`
is total here via `getD`; validation makes every access in range). -/
def calculateWeightedScores (normalizedData : List (String × List K))
    (weights : List (String × K)) (countryNames : List String) : List (RawResult K) :=
  (List.range countryNames.length).map fun i =>
    let contribs := criterionContribs normalizedData weights i
    { country := countryNames.getD i emptyString
      score := (contribs.map fun p => p.2).sum
      criteriaScores := contribs }

/-- `SAWService._post_process_results`: stable descending sort by score,
divisor `results[0].score` guarded to `1.0` when it is `0` (or the list is
empty), dense 1-based ranks, scores rounded to 4 places and percentages to 2. -/
def postProcessResults (results : List (RawResult K)) : List (DecisionResult K) :=
  let sorted := sortDescBy (fun r => r.score) results
  let maxScore0 : K := match sorted.head? with
    | some r => r.score
    | none => 1
  let maxScore := if maxScore0 = 0 then 1 else maxScore0
  (sorted.zip (List.range' 1 sorted.length)).map fun p =>
    { country := p.1.country
      score := pyRound 4 p.1.score
      rank := p.2
      percentage := pyRound 2 (p.1.score / maxScore * 100)
      criteriaScores := p.1.criteriaScores }

/-- The default `NormalizationConfig` built in `SAWService.analyze` when the
caller passes none: min-max, with the criteria types of `SAWService.__init__`. -/
def defaultConfig : NormalizationConfig :=
  { method := .min_max, criteriaTypes := defaultCriteriaTypes }

/-- `SAWService.analyze`: validate, default the configuration, preprocess,
normalize, weight and post-process.  Raised `ValueError`s surface as
`Except.error`. -/
def analyze (sqrt : K → K) (data : List (String × List K)) (weights : List (String × K))
    (countryNames : List String) (config : Option NormalizationConfig) :
    Except String (List (DecisionResult K)) :=
  match validateInputs data weights countryNames with
  | .error e => .error e
  | .ok _ =>
    let cfg := config.getD defaultConfig
    let processedData := preprocessData data
    let normalizedData := normalizeData sqrt processedData cfg
    let results := calculateWeightedScores normalizedData weights countryNames
    .ok (postProcessResults results)

/-! ### `DataNormalizer` and `SAWAnalyzer` (src/models/decision.py) -/

/-- `DataNormalizer.min_max_normalize`: as `minMaxNormalize`, but with an
explicit empty-list guard first. -/
def minMaxNormalizeD (values : List K) (ct : CriteriaType) : List K :=
  if values = [] then []
  else
    let minVal := listMin values
    let maxVal := listMax values
    if maxVal = minVal then List.replicate values.length 1
    else if ct = .cost then values.map fun v => (maxVal - v) / (maxVal - minVal)
    else values.map fun v => (v - minVal) / (maxVal - minVal)

/-- `DataNormalizer.normalize_dataset`: raises `ValueError` on the first
criterion missing from the criteria-type dict. -/
def normalizeDataset :
    List (String × List K) → List (String × CriteriaType) →
    Except String (List (String × List K))
  | [], _ => .ok []
  | c :: rest, criteriaTypes =>
    match alookup c.1 criteriaTypes with
    | none => .error ((r"Criteria type not defined for ") ++ c.1)
    | some ct =>
      match normalizeDataset rest criteriaTypes with
      | .error e => .error e
      | .ok nd => .ok ((c.1, minMaxNormalizeD c.2 ct) :: nd)

/-- `SAWAnalyzer.analyze` of `src/models/decision.py`: lighter validation, no
outlier capping, min-max normalization only, and an unguarded division by the
maximum score (Python raises `ZeroDivisionError` when that maximum is `0`,
modelled as an error; the weighted-scores loop is literally the one in
`SAWService`, so `calculateWeightedScores` is shared). -/
def sawAnalyzerAnalyze (data : List (String × List K)) (weights : List (String × K))
    (countryNames : List String) : Except String (List (DecisionResult K)) :=
  if data = [] ∨ weights = [] ∨ countryNames = [] then
    .error (r"Data, weights, and country names are required")
  else if data.any (fun c => c.2.length ≠ countryNames.length) then
    .error (r"Data length mismatch")
  else
    match normalizeDataset data defaultCriteriaTypes with
    | .error e => .error e
    | .ok normalizedData =>
      let results := calculateWeightedScores normalizedData weights countryNames
      let sorted := sortDescBy (fun r => r.score) results
      let maxScore : K := if results = [] then 1 else listMax (results.map fun r => r.score)
      if maxScore = 0 then .error (r"ZeroDivisionError: float division by zero")
      else
        .ok ((sorted.zip (List.range' 1 sorted.length)).map fun p =>
          { country := p.1.country
            score := pyRound 4 p.1.score
            rank := p.2
            percentage := pyRound 2 (p.1.score / maxScore * 100)
            criteriaScores := p.1.criteriaScores })

/-! ### `AnalyticsService` (src/api/services/analytics.py) -/

/-- Character-level model of Python `str.endswith`. -/
def strEndsWith (s suffix : String) : Bool :=
  decide (s.data.reverse.take suffix.data.length = suffix.data.reverse)

/-- Character-level model of Python `str.replace(old, new)` for a non-empty
`old`: replace every non-overlapping occurrence, scanning left to right (the
source only ever calls it with `old = '_weight'`).  The fuel argument only
serves termination; `s.length` steps always suffice. -/
def replaceChars (old new : List Char) : ℕ → List Char → List Char
  | _, [] => []
  | 0, s => s
  | fuel + 1, c :: rest =>
    if old ≠ [] ∧ old.isPrefixOf (c :: rest) then
      new ++ replaceChars old new fuel ((c :: rest).drop old.length)
    else c :: replaceChars old new fuel rest

/-- Python `weight_name.replace('_weight', '')` as used by the sensitivity
sweep to recover a criterion name from its weight key. -/
def stripWeightKey (s : String) : String :=
  ⟨replaceChars weightSuffix.data emptyString.data (s.data.length + 1) s.data⟩

/-- `AnalyticsService._count_ranking_changes`: a baseline country counts as
changed when its first index in the modified ranking differs from its
baseline index, or it is absent from the modified ranking. -/
def countRankingChanges (baseline modified : List String) : ℕ :=
  ((List.range baseline.length).zip baseline).countP fun p =>
    match modified.findIdx? fun c => c = p.2 with
    | some j => decide (j ≠ p.1)
    | none => true

/-- The record returned by `AnalyticsService._calculate_score_changes`. -/
structure ScoreChanges (K : Type*) where
  averageChange : K
  maxChange : K
  minChange : K
  countryChanges : List (String × K)
deriving DecidableEq

/-- `AnalyticsService._calculate_score_changes`: per-country signed deltas for
the countries present in both score dicts, plus mean/max/min absolute delta
(each `0` when no country is shared). -/
def calculateScoreChanges (baselineScores modifiedScores : List (String × K)) :
    ScoreChanges K :=
  let countryChanges := baselineScores.filterMap fun p =>
    (alookup p.1 modifiedScores).map fun m => (p.1, m - p.2)
  let changes := countryChanges.map fun p => |p.2|
  { averageChange := if changes = [] then 0 else changes.sum / (changes.length : K)
    maxChange := if changes = [] then 0 else listMax changes
    minChange := if changes = [] then 0 else listMin changes
    countryChanges := countryChanges }

/-- `AnalyticsService._calculate_stability_score`: `100` when either input
list is empty; otherwise the average of `1 − mean(ranking_changes)/10` and
`1 − min(mean(score_changes)/2, 1)`, scaled to 0–100 and clamped to
`[0, 100]` — only the final value is clamped, not the two terms. -/
def calculateStabilityScore (rankingChanges : List ℕ) (scoreChanges : List K) : K :=
  if rankingChanges = [] ∨ scoreChanges = [] then 100
  else
    let maxPossibleChanges : K := 10
    let rankingMean : K := (rankingChanges.map (Nat.cast : ℕ → K)).sum / (rankingChanges.length : K)
    let normalizedRankingStability := 1 - rankingMean / maxPossibleChanges
    let maxReasonableScoreChange : K := 2
    let scoreMean := scoreChanges.sum / (scoreChanges.length : K)
    let normalizedScoreStability := 1 - min (scoreMean / maxReasonableScoreChange) 1
    let stability := (normalizedRankingStability + normalizedScoreStability) / 2 * 100
    max 0 (min 100 stability)

/-- The weight dict used for one perturbed run: `base_weights.copy()` followed
by `modified_weights[weight_name] = original_weight * (1 + variation)` (the
key is present at every call site, so the assignment updates in place). -/
def modifiedWeightsFor (baseWeights : List (String × K)) (weightName : String) (variation : K) :
    List (String × K) :=
  baseWeights.map fun p => if p.1 = weightName then (p.1, p.2 * (1 + variation)) else p

/-- The per-variation record appended to `variations` by
`AnalyticsService._analyze_criterion_sensitivity`. -/
structure VariationResult (K : Type*) where
  variationPercentage : K
  newWeightValue : K
  rankingChanges : ℕ
  topCountry : Option String
  topCountryChanged : Bool
  scoreChanges : ScoreChanges K
  newRanking : List String
deriving DecidableEq

/-- The body of the per-variation `try` block of
`_analyze_criterion_sensitivity`: look up the original weight (a `KeyError`
is an error, caught by the caller), rerun `SAWService.analyze` with the
modified weights, and compute the variation record plus the three values
appended to the aggregate lists (`ranking_changes`, `score_changes`,
`top_country_changes`). -/
def runVariation (sqrt : K → K) (data : List (String × List K))
    (baseWeights : List (String × K)) (countryNames : List String) (weightName : String)
    (baselineRanking : List String) (baselineScores : List (String × K)) (variation : K) :
    Except String (VariationResult K × ℕ × K × Bool) :=
  match alookup weightName baseWeights with
  | none => .error ((r"KeyError: ") ++ weightName)
  | some originalWeight =>
    let modifiedWeights := modifiedWeightsFor baseWeights weightName variation
    match analyze sqrt data modifiedWeights countryNames none with
    | .error e => .error e
    | .ok modifiedResults =>
      let modifiedRanking := modifiedResults.map fun r => r.country
      let modifiedScores := modifiedResults.map fun r => (r.country, r.score)
      let rankingChangeCount := countRankingChanges baselineRanking modifiedRanking
      let scoreChangesDict := calculateScoreChanges baselineScores modifiedScores
      let topCountryChanged :=
        match baselineRanking, modifiedRanking with
        | b :: _, m :: _ => decide (b ≠ m)
        | _, _ => false
      .ok ({ variationPercentage := pyRound 1 (variation * 100)
             newWeightValue := pyRound 3 (originalWeight * (1 + variation))
             rankingChanges := rankingChangeCount
             topCountry := modifiedRanking.head?
             topCountryChanged := topCountryChanged
             scoreChanges := scoreChangesDict
             newRanking := modifiedRanking.take 5 },
           rankingChangeCount, |scoreChangesDict.averageChange|, topCountryChanged)

/-- The `sensitivity_metrics` dict of `_analyze_criterion_sensitivity`. -/
structure SensitivityMetrics (K : Type*) where
  averageRankingChanges : K
  maxRankingChanges : ℕ
  averageScoreChange : K
  maxScoreChange : K
  topCountryChangeFrequency : K
  stabilityScore : K
deriving DecidableEq

/-- The per-criterion record returned by `_analyze_criterion_sensitivity`. -/
structure CriterionSensitivity (K : Type*) where
  variations : List (VariationResult K)
  metrics : SensitivityMetrics K
deriving DecidableEq

/-- Python `max` of a non-empty list of naturals (`0` for the empty list, on
which Python raises; guarded at the call site). -/
def listMaxNat : List ℕ → ℕ
  | [] => 0
  | [x] => x
  | x :: y :: rest => max x (listMaxNat (y :: rest))

/-- `AnalyticsService._analyze_criterion_sensitivity`: run every variation,
skipping (only) the ones whose `try` body raises, then aggregate the metrics
over the successful runs. -/
def analyzeCriterionSensitivity (sqrt : K → K) (data : List (String × List K))
    (baseWeights : List (String × K)) (countryNames : List String) (weightName : String)
    (variationRange : List K) (baselineRanking : List String)
    (baselineScores : List (String × K)) : CriterionSensitivity K :=
  let runs := variationRange.filterMap fun v =>
    (runVariation sqrt data baseWeights countryNames weightName
      baselineRanking baselineScores v).toOption
  let variations := runs.map fun r => r.1
  let rankingChanges := runs.map fun r => r.2.1
  let scoreChanges := runs.map fun r => r.2.2.1
  let topCountryChanges := runs.map fun r => r.2.2.2
  { variations := variations
    metrics :=
      { averageRankingChanges :=
          if rankingChanges = [] then 0
          else (rankingChanges.map (Nat.cast : ℕ → K)).sum / (rankingChanges.length : K)
        maxRankingChanges := if rankingChanges = [] then 0 else listMaxNat rankingChanges
        averageScoreChange :=
          if scoreChanges = [] then 0 else scoreChanges.sum / (scoreChanges.length : K)
        maxScoreChange := if scoreChanges = [] then 0 else listMax scoreChanges
        topCountryChangeFrequency :=
          if topCountryChanges = [] then 0
          else ((topCountryChanges.countP id : ℕ) : K) / (topCountryChanges.length : K)
        stabilityScore := calculateStabilityScore rankingChanges scoreChanges } }

/-- The `overall_sensitivity` dict of
`AnalyticsService._calculate_overall_sensitivity`. -/
structure OverallSensitivity (K : Type*) where
  overallStabilityScore : K
  mostSensitiveCriterion : Option String
  leastSensitiveCriterion : Option String
  averageRankingChanges : K
  averageScoreChanges : K
  highSensitivity : ℕ
  mediumSensitivity : ℕ
  lowSensitivity : ℕ
deriving DecidableEq

/-- Fold step tracking the running minimum-stability criterion
(`min_stability` starts at `float('inf')`, modelled by `none`). -/
def updateMostSensitive (acc : Option (String × K)) (entry : String × CriterionSensitivity K) :
    Option (String × K) :=
  match acc with
  | none => some (entry.1, entry.2.metrics.stabilityScore)
  | some (c, s) =>
    if entry.2.metrics.stabilityScore < s then some (entry.1, entry.2.metrics.stabilityScore)
    else some (c, s)

/-- Fold step tracking the running maximum-stability criterion
(`max_stability` starts at `0`, so a sweep whose stabilities are all `≤ 0`
names no least-sensitive criterion — faithful to the source). -/
def updateLeastSensitive (acc : Option (String × K)) (entry : String × CriterionSensitivity K) :
    Option (String × K) :=
  match acc with
  | none => if 0 < entry.2.metrics.stabilityScore
      then some (entry.1, entry.2.metrics.stabilityScore) else none
  | some (c, s) =>
    if s < entry.2.metrics.stabilityScore then some (entry.1, entry.2.metrics.stabilityScore)
    else some (c, s)

/-- `AnalyticsService._calculate_overall_sensitivity`. -/
def calculateOverallSensitivity (entries : List (String × CriterionSensitivity K)) :
    OverallSensitivity K :=
  let stabilityScores := entries.map fun e => e.2.metrics.stabilityScore
  let rankingChanges := entries.map fun e => e.2.metrics.averageRankingChanges
  let scoreChanges := entries.map fun e => e.2.metrics.averageScoreChange
  { overallStabilityScore :=
      if stabilityScores = [] then 100 else stabilityScores.sum / (stabilityScores.length : K)
    mostSensitiveCriterion := (entries.foldl updateMostSensitive none).map fun p => p.1
    leastSensitiveCriterion := (entries.foldl updateLeastSensitive none).map fun p => p.1
    averageRankingChanges :=
      if rankingChanges = [] then 0 else rankingChanges.sum / (rankingChanges.length : K)
    averageScoreChanges :=
      if scoreChanges = [] then 0 else scoreChanges.sum / (scoreChanges.length : K)
    highSensitivity := stabilityScores.countP fun s => decide (s < 70)
    mediumSensitivity := stabilityScores.countP fun s => decide (70 ≤ s ∧ s < 85)
    lowSensitivity := stabilityScores.countP fun s => decide (85 ≤ s) }

/-- The sensitivity report assembled by
`AnalyticsService.perform_sensitivity_analysis` (the free-text
`recommendations` strings and the wall-clock `analysis_timestamp` are
presentation only and are not modelled). -/
structure SensitivityReport (K : Type*) where
  baselineRanking : List String
  baselineScores : List (String × K)
  topCountry : Option String
  criterionSensitivity : List (String × CriterionSensitivity K)
  overall : OverallSensitivity K
  variationRange : List K
  baseWeights : List (String × K)
deriving DecidableEq

/-- The `sensitivity_results` dict: one entry per base-weight key ending in
`_weight` (others are skipped by the `continue`), keyed by the stripped
criterion name, inserted in dict order. -/
def buildEntries (sqrt : K → K) (data : List (String × List K))
    (baseWeights : List (String × K)) (countryNames : List String)
    (variationRange : List K) (baselineRanking : List String)
    (baselineScores : List (String × K)) :
    List (String × K) → List (String × CriterionSensitivity K) →
    List (String × CriterionSensitivity K)
  | [], acc => acc
  | (k, _) :: rest, acc =>
    buildEntries sqrt data baseWeights countryNames variationRange baselineRanking
      baselineScores rest
      (if strEndsWith k weightSuffix then
        dictInsert acc (stripWeightKey k)
          (analyzeCriterionSensitivity sqrt data baseWeights countryNames k
            variationRange baselineRanking baselineScores)
      else acc)

/-- The default variation range of `perform_sensitivity_analysis`. -/
def defaultVariationRange : List K :=
  [-(3 / 10), -(2 / 10), -(1 / 10), 0, 1 / 10, 2 / 10, 3 / 10]

/-- `AnalyticsService.perform_sensitivity_analysis`: one baseline
`SAWService.analyze` run (an error there aborts the sweep), then the
per-criterion sweep and the overall aggregates. -/
def performSensitivityAnalysis (sqrt : K → K) (data : List (String × List K))
    (baseWeights : List (String × K)) (countryNames : List String)
    (variationRange : Option (List K)) : Except String (SensitivityReport K) :=
  let range := variationRange.getD defaultVariationRange
  match analyze sqrt data baseWeights countryNames none with
  | .error e => .error ((r"Sensitivity analysis error: ") ++ e)
  | .ok baselineResults =>
    let baselineRanking := baselineResults.map fun r => r.country
    let baselineScores := baselineResults.map fun r => (r.country, r.score)
    let entries := buildEntries sqrt data baseWeights countryNames range
      baselineRanking baselineScores baseWeights []
    .ok { baselineRanking := baselineRanking
          baselineScores := baselineScores
          topCountry := baselineRanking.head?
          criterionSensitivity := entries
          overall := calculateOverallSensitivity entries
          variationRange := range
          baseWeights := baseWeights }

/-! ### Country-name literals used in concrete witnesses -/

def countryA : String := r"A"

def countryB : String := r"B"

def countryC : String := r"C"

def countryD : String := r"D"

/-- A stand-in square root used in witnesses whose run never consults it
(the default configuration normalizes with min-max). -/
def sqrtZeroQ : ℚ → ℚ := fun _ => 0

/-! ### General helper lemmas -/

theorem clamp01_of_mem {t : K} (h0 : 0 ≤ t) (h1 : t ≤ 1) : max 0 (min 1 t) = t := by
  rw [min_eq_right h1, max_eq_right h0]

theorem listMax_mem : ∀ {l : List K}, l ≠ [] → listMax l ∈ l
  | [x], _ => by simp [listMax]
  | x :: y :: rest, _ => by
    rcases max_choice x (listMax (y :: rest)) with h | h
    · simp [listMax, h]
    · have := listMax_mem (l := y :: rest) (by simp)
      simp only [listMax, h]
      exact List.mem_cons_of_mem x this

theorem le_listMax : ∀ {l : List K} {x : K}, x ∈ l → x ≤ listMax l
  | [x], y, h => by simp_all [listMax]
  | x :: y :: rest, z, h => by
    rcases List.mem_cons.mp h with rfl | h
    · simp [listMax]
    · exact le_trans (le_listMax h) (by simp [listMax])

theorem listMin_mem : ∀ {l : List K}, l ≠ [] → listMin l ∈ l
  | [x], _ => by simp [listMin]
  | x :: y :: rest, _ => by
    rcases min_choice x (listMin (y :: rest)) with h | h
    · simp [listMin, h]
    · have := listMin_mem (l := y :: rest) (by simp)
      simp only [listMin, h]
      exact List.mem_cons_of_mem x this

theorem listMin_le : ∀ {l : List K} {x : K}, x ∈ l → listMin l ≤ x
  | [x], y, h => by simp_all [listMin]
  | x :: y :: rest, z, h => by
    rcases List.mem_cons.mp h with rfl | h
    · simp [listMin]
    · exact le_trans (by simp [listMin]) (listMin_le h)

/-! ### C6 — input validation -/

/-- Success condition of `_validate_inputs`, as an iff (helper form, shared
by the concrete evaluations below). -/
theorem validateInputs_ok_iff (data : List (String × List K))
    (weights : List (String × K)) (countryNames : List String) :
    validateInputs data weights countryNames = .ok () ↔
      data ≠ [] ∧ weights ≠ [] ∧ countryNames ≠ [] ∧
      (∀ p ∈ data, p.2.length = countryNames.length) ∧
      (∀ p ∈ weights, 0 ≤ p.2) ∧ countryNames.Nodup := by
  constructor
  · intro h
    unfold validateInputs at h
    split_ifs at h with h1 h2 h3 h4 h5 h6
    all_goals cases h
    refine ⟨h1, h2, h3, ?_, ?_, ?_⟩
    · intro p hp
      by_contra hne
      exact h4 (List.any_eq_true.mpr ⟨p, hp, decide_eq_true hne⟩)
    · intro p hp
      by_contra hneg
      exact h5 (List.any_eq_true.mpr ⟨p, hp, decide_eq_true (not_le.mp hneg)⟩)
    · exact h6
  · rintro ⟨h1, h2, h3, h4, h5, h6⟩
    have hA : ¬((data.any fun c => c.2.length ≠ countryNames.length) = true) := by
      rw [List.any_eq_true]
      rintro ⟨p, hp, hpe⟩
      exact of_decide_eq_true hpe (h4 p hp)
    have hB : ¬((weights.any fun w => w.2 < 0) = true) := by
      rw [List.any_eq_true]
      rintro ⟨p, hp, hpe⟩
      exact absurd (h5 p hp) (not_le.mpr (of_decide_eq_true hpe))
    unfold validateInputs
    rw [if_neg h1, if_neg h2, if_neg h3, if_neg hA, if_neg hB, if_neg (not_not.mpr h6)]

/-- C6: `_validate_inputs` raises a validation error exactly when one of the
listed conditions holds, i.e. it succeeds iff the data dict, the weight dict
and the country-name list are all non-empty, every value list has exactly one
value per country, every weight is non-negative, and the country names are
pairwise distinct.  (Over the numeric model `K` the NaN / non-numeric checks
are vacuous — `K` has no NaN; validation is a pure function, so it has no
effect on its inputs.) -/
theorem C6_validation_iff (data : List (String × List K))
    (weights : List (String × K)) (countryNames : List String) :
    validateInputs data weights countryNames = .ok () ↔
      data ≠ [] ∧ weights ≠ [] ∧ countryNames ≠ [] ∧
      (∀ p ∈ data, p.2.length = countryNames.length) ∧
      (∀ p ∈ weights, 0 ≤ p.2) ∧ countryNames.Nodup :=
  validateInputs_ok_iff data weights countryNames

/-! ### C2 — the stability score -/

/-- The stability-score formula as the specification words it: both terms
individually clamped to `[0, 1]` before averaging (this is the claim text,
kept for comparison with the implementation `calculateStabilityScore`). -/
def stabilityScoreSpec (rankingChanges : List ℕ) (scoreChanges : List K) : K :=
  if rankingChanges = [] ∨ scoreChanges = [] then 100
  else
    let t1 : K :=
      1 - ((rankingChanges.map (Nat.cast : ℕ → K)).sum / (rankingChanges.length : K)) / 10
    let t2 : K := 1 - min ((scoreChanges.sum / (scoreChanges.length : K)) / 2) 1
    max 0 (min 100 ((max 0 (min 1 t1) + max 0 (min 1 t2)) / 2 * 100))

/-- C2 counterexample: with one variation showing 20 ranking changes and a
zero mean score change, the implementation returns 0 (the unclamped first
term is −1 and pulls the average to 0), while the claimed per-term clamping
would return 50. -/
theorem C2_counterexample :
    calculateStabilityScore [20] ([0] : List ℚ) = 0 ∧
      stabilityScoreSpec [20] ([0] : List ℚ) = 50 := by
  constructor <;> norm_num [calculateStabilityScore, stabilityScoreSpec]

/-- C2 (amended): the implementation clamps only the final value to
`[0, 100]`, not the two terms; the claimed formula with per-term clamping
agrees with it whenever the mean ranking-change count is at most 10 and the
per-variation mean absolute score changes are non-negative (as the absolute
values fed in by `_analyze_criterion_sensitivity` always are) — both terms
then already lie in `[0, 1]`.  When either list is empty the score is 100 by
definition in both. -/
theorem C2_stabilityScore_eq_spec (rankingChanges : List ℕ) (scoreChanges : List K)
    (hrc : rankingChanges ≠ []) (hsc : scoreChanges ≠ [])
    (hmean : (rankingChanges.map (Nat.cast : ℕ → K)).sum ≤ 10 * rankingChanges.length)
    (hnn : ∀ s ∈ scoreChanges, 0 ≤ s) :
    calculateStabilityScore rankingChanges scoreChanges =
      stabilityScoreSpec rankingChanges scoreChanges := by
  have hrlen : (0 : K) < rankingChanges.length :=
    Nat.cast_pos.mpr (List.length_pos.mpr hrc)
  have hslen : (0 : K) < scoreChanges.length :=
    Nat.cast_pos.mpr (List.length_pos.mpr hsc)
  have hrsum : (0 : K) ≤ (rankingChanges.map (Nat.cast : ℕ → K)).sum :=
    List.sum_nonneg (by
      intro x hx
      rcases List.mem_map.mp hx with ⟨n, _, rfl⟩
      exact Nat.cast_nonneg n)
  have hssum : (0 : K) ≤ scoreChanges.sum := List.sum_nonneg hnn
  have hrmean0 : (0 : K) ≤ (rankingChanges.map (Nat.cast : ℕ → K)).sum /
      (rankingChanges.length : K) := div_nonneg hrsum hrlen.le
  have hrmean10 : (rankingChanges.map (Nat.cast : ℕ → K)).sum /
      (rankingChanges.length : K) ≤ 10 := (div_le_iff₀ hrlen).mpr (by linarith)
  have ht1l : (0 : K) ≤
      1 - ((rankingChanges.map (Nat.cast : ℕ → K)).sum / (rankingChanges.length : K)) / 10 := by
    have : ((rankingChanges.map (Nat.cast : ℕ → K)).sum / (rankingChanges.length : K)) / 10
        ≤ 1 := by
      rw [div_le_one (by norm_num : (0:K) < 10)]
      exact hrmean10
    linarith
  have ht1r :
      1 - ((rankingChanges.map (Nat.cast : ℕ → K)).sum / (rankingChanges.length : K)) / 10
        ≤ 1 := by
    have : (0 : K) ≤
        ((rankingChanges.map (Nat.cast : ℕ → K)).sum / (rankingChanges.length : K)) / 10 :=
      div_nonneg hrmean0 (by norm_num)
    linarith
  have hm0 : (0 : K) ≤ min ((scoreChanges.sum / (scoreChanges.length : K)) / 2) 1 :=
    le_min (div_nonneg (div_nonneg hssum hslen.le) (by norm_num)) zero_le_one
  have hm1 : min ((scoreChanges.sum / (scoreChanges.length : K)) / 2) 1 ≤ 1 :=
    min_le_right _ _
  have ht2l : (0 : K) ≤ 1 - min ((scoreChanges.sum / (scoreChanges.length : K)) / 2) 1 := by
    linarith
  have ht2r : 1 - min ((scoreChanges.sum / (scoreChanges.length : K)) / 2) 1 ≤ 1 := by
    linarith
  simp only [calculateStabilityScore, stabilityScoreSpec, if_neg (by
    simp [hrc, hsc] : ¬(rankingChanges = [] ∨ scoreChanges = []))]
  rw [clamp01_of_mem ht1l ht1r, clamp01_of_mem ht2l ht2r]

/-- C2 witness: a concrete in-range input, the amended theorem applied to it:
one variation with 2 ranking changes and mean absolute score change 1. -/
theorem C2_witness :
    calculateStabilityScore [2] ([1] : List ℚ) = stabilityScoreSpec [2] [1] :=
  C2_stabilityScore_eq_spec [2] [1] (by simp) (by simp) (by norm_num) (by norm_num)

/-! ### C1 — degenerate (constant) criteria under the three normalizers -/

theorem listMax_const {l : List K} {c : K} (hne : l ≠ []) (hc : ∀ x ∈ l, x = c) :
    listMax l = c :=
  hc _ (listMax_mem hne)

theorem listMin_const {l : List K} {c : K} (hne : l ≠ []) (hc : ∀ x ∈ l, x = c) :
    listMin l = c :=
  hc _ (listMin_mem hne)

/-- Min-max normalization of a constant vector short-circuits to all ones,
for either criteria direction (over any `K`). -/
theorem minMaxNormalize_const {l : List K} {c : K} (hne : l ≠ []) (hc : ∀ x ∈ l, x = c)
    (ct : CriteriaType) : minMaxNormalize l ct = List.replicate l.length 1 := by
  simp [minMaxNormalize, listMax_const hne hc, listMin_const hne hc]

/-- C1 counterexample: the vector normalizer returns `1/2`, not `1.0`, on the
constant benefit vector `[5, 5, 5, 5]` — its degenerate-case guard only fires
on an all-zero vector, since the Euclidean norm of a nonzero constant vector
is not zero. -/
theorem C1_counterexample :
    vectorNormalize Real.sqrt [(5 : ℝ), 5, 5, 5] CriteriaType.benefit ≠
      List.replicate 4 (1 : ℝ) := by
  have hs : Real.sqrt 100 = 10 := by
    rw [show (100 : ℝ) = 10 ^ 2 by norm_num]
    exact Real.sqrt_sq (by norm_num)
  have hv : vectorNormalize Real.sqrt [(5 : ℝ), 5, 5, 5] CriteriaType.benefit =
      [1 / 2, 1 / 2, 1 / 2, 1 / 2] := by
    simp only [vectorNormalize]
    norm_num [hs]
    exact fun h => nomatch h
  rw [hv, show List.replicate 4 (1 : ℝ) = [1, 1, 1, 1] from rfl]
  intro h
  rw [List.cons.injEq] at h
  norm_num at h

/-- C1 (amended): for every non-empty constant value vector, min-max and
z-score normalization return `1.0` for every alternative, for both BENEFIT
and COST; vector normalization does so only when the constant is `0` (its
guard tests the sum of squares), and on a nonzero constant vector returns
`c / ‖v‖` (benefit) or `0` (cost) instead. -/
theorem C1_constant_normalization (n : ℕ) (c : ℝ) (hn : 0 < n) :
    (∀ ct, minMaxNormalize (List.replicate n c) ct = List.replicate n 1) ∧
    (∀ ct, zScoreNormalize Real.sqrt (List.replicate n c) ct = List.replicate n 1) ∧
    (∀ ct, vectorNormalize Real.sqrt (List.replicate n (0 : ℝ)) ct = List.replicate n 1) := by
  have hne : List.replicate n c ≠ [] := by
    intro h
    have := congrArg List.length h
    simp only [List.length_replicate, List.length_nil] at this
    omega
  have hc : ∀ x ∈ List.replicate n c, x = c := fun _ hx => List.eq_of_mem_replicate hx
  have hlen : (List.replicate n c).length = n := List.length_replicate n c
  refine ⟨fun ct => ?_, fun ct => ?_, fun ct => ?_⟩
  · rw [minMaxNormalize_const hne hc ct, hlen]
  · have hnne : ((n : ℝ)) ≠ 0 := Nat.cast_ne_zero.mpr hn.ne'
    have hmean : (List.replicate n c).sum / (((List.replicate n c).length : ℕ) : ℝ) = c := by
      rw [List.sum_replicate, hlen, nsmul_eq_mul, mul_div_cancel_left₀ _ hnne]
    simp only [zScoreNormalize, hmean, List.map_replicate, sub_self]
    norm_num [List.sum_replicate, hlen]
  · simp [vectorNormalize, List.map_replicate, List.sum_replicate]

/-- C1 witness: the amended theorem at a concrete constant vector of two
entries of `5` (and the all-zero case for the vector normalizer). -/
theorem C1_witness :
    (∀ ct, minMaxNormalize (List.replicate 2 (5 : ℝ)) ct = List.replicate 2 1) ∧
    (∀ ct, zScoreNormalize Real.sqrt (List.replicate 2 (5 : ℝ)) ct = List.replicate 2 1) ∧
    (∀ ct, vectorNormalize Real.sqrt (List.replicate 2 (0 : ℝ)) ct = List.replicate 2 1) :=
  C1_constant_normalization 2 5 (by norm_num)

/-! ### Evaluation toolkit: two-element percentiles, outlier capping, rounding -/

theorem sortAsc_pair_le {a b : K} (h : a ≤ b) : sortAsc [a, b] = [a, b] := by
  simp [sortAsc, insertAsc, h]

theorem sortAsc_pair_gt {a b : K} (h : ¬ a ≤ b) : sortAsc [a, b] = [b, a] := by
  simp [sortAsc, insertAsc, h]

/-- `np.percentile` on a two-element list interpolates linearly between the
smaller and the larger value. -/
theorem percentile_pair (a b : K) (q : K) (h0 : 0 ≤ q) (h1 : q < 100) :
    percentile [a, b] q = min a b + q / 100 * (max a b - min a b) := by
  have hq0 : (0 : K) ≤ q / 100 := by positivity
  have hq1 : q / 100 < 1 := (div_lt_one (by norm_num : (0 : K) < 100)).mpr h1
  have hcast : (([a, b] : List K).length : K) - 1 = 1 := by norm_num
  have hfl : ⌊q / 100 * ((([a, b] : List K).length : K) - 1)⌋ = 0 := by
    rw [hcast, mul_one]
    exact Int.floor_eq_zero_iff.mpr (Set.mem_Ico.mpr ⟨hq0, hq1⟩)
  have hfl2 : ⌊q / 100⌋ = 0 := Int.floor_eq_zero_iff.mpr (Set.mem_Ico.mpr ⟨hq0, hq1⟩)
  by_cases hab : a ≤ b
  · rw [min_eq_left hab, max_eq_right hab]
    simp only [percentile, sortAsc_pair_le hab]
    norm_num [hfl2, List.getD]
  · rw [min_eq_right (le_of_not_le hab), max_eq_left (le_of_not_le hab)]
    simp only [percentile, sortAsc_pair_gt hab]
    norm_num [hfl2, List.getD]

/-- On a two-element list the IQR fences always contain both values, so
outlier capping is the identity (interesting in itself: capping never fires
below four values). -/
theorem handleOutliers_pair (a b : K) : handleOutliers [a, b] = [a, b] := by
  have h25 := percentile_pair a b 25 (by norm_num) (by norm_num)
  have h75 := percentile_pair a b 75 (by norm_num) (by norm_num)
  have hmin1 : min a b ≤ a := min_le_left a b
  have hmin2 : min a b ≤ b := min_le_right a b
  have hmax1 : a ≤ max a b := le_max_left a b
  have hmax2 : b ≤ max a b := le_max_right a b
  simp only [handleOutliers, h25, h75, List.map_cons, List.map_nil]
  rw [if_neg (by linarith), if_neg (by linarith), if_neg (by linarith), if_neg (by linarith)]

theorem pyRound_intCast (d : ℕ) (n : ℤ) : pyRound d ((n : K)) = (n : K) := by
  have h10 : ((10 : K)) ^ d ≠ 0 := by positivity
  have hy : ((n : K)) * (10 : K) ^ d = ((n * 10 ^ d : ℤ) : K) := by push_cast; ring
  simp only [pyRound, hy, Int.floor_intCast, sub_self]
  rw [if_pos (by norm_num : (0 : K) < 1 / 2)]
  push_cast
  exact mul_div_cancel_right₀ _ h10

/-- Rewriting form of `pyRound_intCast` for goals whose argument is a numeral
rather than a syntactic integer cast. -/
theorem pyRound_int (d : ℕ) (x : K) (n : ℤ) (h : x = (n : K)) : pyRound d x = x := by
  rw [h, pyRound_intCast]

/-- Evaluation of `pyRound` when the scaled value falls strictly below the
half-way point. -/
theorem pyRound_eq_low (d : ℕ) (x : K) (n : ℤ) (hfl : ⌊x * (10 : K) ^ d⌋ = n)
    (hlt : x * (10 : K) ^ d - (n : K) < 1 / 2) : pyRound d x = (n : K) / (10 : K) ^ d := by
  simp only [pyRound, hfl]
  rw [if_pos hlt]

/-- Evaluation of `pyRound` when the scaled value falls strictly above the
half-way point. -/
theorem pyRound_eq_high (d : ℕ) (x : K) (n : ℤ) (hfl : ⌊x * (10 : K) ^ d⌋ = n)
    (hgt : 1 / 2 < x * (10 : K) ^ d - (n : K)) :
    pyRound d x = ((n : K) + 1) / (10 : K) ^ d := by
  simp only [pyRound, hfl]
  rw [if_neg (by linarith), if_pos hgt]
  push_cast
  ring

/-! ### C5 — missing weight keys -/

/-- The fold of recorded contributions equals the sum over all criteria with
a missing weight read as `0`. -/
theorem contribs_sum (normalizedData : List (String × List K)) (weights : List (String × K))
    (i : ℕ) :
    ((criterionContribs normalizedData weights i).map fun p => p.2).sum =
      (normalizedData.map fun c =>
        ((alookup (c.1 ++ weightSuffix) weights).getD 0) * c.2.getD i 0).sum := by
  simp only [criterionContribs]
  induction normalizedData with
  | nil => rfl
  | cons c rest ih =>
    cases halo : alookup (c.1 ++ weightSuffix) weights with
    | none =>
      simp only [List.filterMap_cons, halo, Option.map_none, List.map_cons, List.sum_cons,
        Option.getD_none, zero_mul, zero_add]
      exact ih
    | some w =>
      simp only [List.filterMap_cons, halo, Option.map_some', Option.getD_some, List.map_cons,
        List.sum_cons]
      rw [ih]

/-- A criterion whose weight key is absent from the weight dict has no entry
in the contribution breakdown. -/
theorem contribs_missing (normalizedData : List (String × List K))
    (weights : List (String × K)) (i : ℕ) (cstar : String)
    (hmiss : alookup (cstar ++ weightSuffix) weights = none) :
    alookup cstar (criterionContribs normalizedData weights i) = none := by
  simp only [criterionContribs]
  induction normalizedData with
  | nil => rfl
  | cons c rest ih =>
    by_cases hc : c.1 = cstar
    · have hnone : alookup (c.1 ++ weightSuffix) weights = none := by rw [hc]; exact hmiss
      simpa only [List.filterMap_cons, hnone, Option.map_none] using ih
    · cases halo : alookup (c.1 ++ weightSuffix) weights with
      | none => simpa only [List.filterMap_cons, halo, Option.map_none] using ih
      | some w =>
        simp only [List.filterMap_cons, halo, Option.map_some]
        simpa only [alookup, if_neg hc] using ih

/-- A criterion whose weight key is present has an entry in the contribution
breakdown. -/
theorem contribs_present (normalizedData : List (String × List K))
    (weights : List (String × K)) (i : ℕ) (c : String × List K)
    (hmem : c ∈ normalizedData) (hw : (alookup (c.1 ++ weightSuffix) weights).isSome) :
    (alookup c.1 (criterionContribs normalizedData weights i)).isSome := by
  simp only [criterionContribs]
  induction normalizedData with
  | nil => cases hmem
  | cons d rest ih =>
    rcases List.mem_cons.mp hmem with rfl | hmem
    · cases halo : alookup (c.1 ++ weightSuffix) weights with
      | none => rw [halo] at hw; cases hw
      | some w => simp [List.filterMap_cons, halo, alookup]
    · cases halo : alookup (d.1 ++ weightSuffix) weights with
      | none =>
        simp only [List.filterMap_cons, halo, Option.map_none]
        exact ih hmem
      | some w =>
        by_cases hd : d.1 = c.1
        · rw [hd] at halo
          simp [List.filterMap_cons, hd, halo, alookup]
        · simp only [List.filterMap_cons, halo, Option.map_some']
          simp only [alookup, if_neg hd]
          exact ih hmem

/-- Successful validation means the whole pipeline completes: every later
stage of `analyze` is total. -/
theorem analyze_isOk_of_valid (sqrt : K → K) (data : List (String × List K))
    (weights : List (String × K)) (countryNames : List String)
    (config : Option NormalizationConfig)
    (hval : validateInputs data weights countryNames = .ok ()) :
    (analyze sqrt data weights countryNames config).isOk = true := by
  simp [analyze, hval, Except.isOk, Except.toBool]

/-- C5 (amended): when a criterion present in the data has no
`<criterion>_weight` key, `analyze` still completes without raising (given
validation passes), the criterion contributes `0` to every total — each raw
score is the sum over all criteria of (weight or `0`) × normalized value —
and the contribution breakdown records exactly the criteria whose weight is
present: the weightless criterion has no entry in it (rather than a recorded
`0` entry). -/
theorem C5_missing_weight (sqrt : K → K) (data : List (String × List K))
    (weights : List (String × K)) (countryNames : List String)
    (config : Option NormalizationConfig) (cstar : String)
    (hval : validateInputs data weights countryNames = .ok ())
    (hmiss : alookup (cstar ++ weightSuffix) weights = none) :
    (analyze sqrt data weights countryNames config).isOk = true ∧
    (∀ normalizedData : List (String × List K), ∀ i ∈ List.range countryNames.length,
      ∃ r, (calculateWeightedScores normalizedData weights countryNames).get? i = some r ∧
        r.score = (normalizedData.map fun c =>
          ((alookup (c.1 ++ weightSuffix) weights).getD 0) * c.2.getD i 0).sum ∧
        alookup cstar r.criteriaScores = none ∧
        ∀ c ∈ normalizedData, (alookup (c.1 ++ weightSuffix) weights).isSome →
          (alookup c.1 r.criteriaScores).isSome) := by
  refine ⟨analyze_isOk_of_valid sqrt data weights countryNames config hval, ?_⟩
  intro normalizedData i hi
  have hi' : i < countryNames.length := List.mem_range.mp hi
  refine ⟨{ country := countryNames.getD i emptyString
            score := ((criterionContribs normalizedData weights i).map fun p => p.2).sum
            criteriaScores := criterionContribs normalizedData weights i },
      ?_, contribs_sum normalizedData weights i,
      contribs_missing normalizedData weights i cstar hmiss,
      fun c hc hw => contribs_present normalizedData weights i c hc hw⟩
  rw [calculateWeightedScores, List.get?_map, List.get?_range hi']
  rfl

/-! ### A concrete reference run (two criteria, one weighted, two countries) -/

/-- Concrete data dict: two criteria, index-aligned with two countries. -/
def dataTwoCrit : List (String × List ℚ) := [(jobProspects, [1, 2]), (climateScore, [3, 4])]

/-- Concrete weight dict: only `job_prospects_weight` is present, so
`climate_score` has no weight. -/
def weightsJobOnly : List (String × ℚ) := [(jobProspects ++ weightSuffix, 1)]

/-- Concrete country names. -/
def namesAB : List String := [countryA, countryB]

theorem validate_twoCrit : validateInputs dataTwoCrit weightsJobOnly namesAB = .ok () := by
  apply (validateInputs_ok_iff _ _ _).mpr
  refine ⟨by simp [dataTwoCrit], by simp [weightsJobOnly], by simp [namesAB], ?_, ?_, ?_⟩
  · intro p hp
    simp only [dataTwoCrit, List.mem_cons, List.not_mem_nil, or_false] at hp
    rcases hp with rfl | rfl <;> simp [namesAB]
  · intro p hp
    simp only [weightsJobOnly, List.mem_cons, List.not_mem_nil, or_false] at hp
    subst hp
    norm_num
  · decide

theorem analyzeTwoCrit_eval :
    analyze sqrtZeroQ dataTwoCrit weightsJobOnly namesAB none =
      .ok [{ country := countryB, score := 1, rank := 1, percentage := 100,
             criteriaScores := [(jobProspects, 1)] },
           { country := countryA, score := 0, rank := 2, percentage := 0,
             criteriaScores := [(jobProspects, 0)] }] := by
  have hpre : preprocessData dataTwoCrit = dataTwoCrit := by
    simp [preprocessData, dataTwoCrit, handleOutliers_pair]
  have halo1 : alookup jobProspects defaultCriteriaTypes = some .benefit := by decide
  have halo2 : alookup climateScore defaultCriteriaTypes = some .benefit := by decide
  have hnorm : normalizeData sqrtZeroQ dataTwoCrit defaultConfig =
      [(jobProspects, [0, 1]), (climateScore, [0, 1])] := by
    simp only [normalizeData, dataTwoCrit, List.map_cons, List.map_nil, defaultConfig,
      halo1, halo2, Option.getD_some]
    norm_num [minMaxNormalize, listMin, listMax]
    decide
  have hlook1 : alookup (jobProspects ++ weightSuffix) weightsJobOnly = some 1 := by decide
  have hlook2 : alookup (climateScore ++ weightSuffix) weightsJobOnly = none := by decide
  have hrange : List.range namesAB.length = [0, 1] := rfl
  have hws : calculateWeightedScores [(jobProspects, [0, 1]), (climateScore, [0, 1])]
      weightsJobOnly namesAB =
      [{ country := countryA, score := 0, criteriaScores := [(jobProspects, 0)] },
       { country := countryB, score := 1, criteriaScores := [(jobProspects, 1)] }] := by
    simp only [calculateWeightedScores, criterionContribs, hrange, List.map_cons, List.map_nil,
      List.filterMap_cons, List.filterMap_nil, hlook1, hlook2, Option.map_some', Option.map_none,
      List.sum_cons, List.sum_nil]
    norm_num [namesAB, List.getD]
  have hsort : sortDescBy (fun r : RawResult ℚ => r.score)
      [{ country := countryA, score := 0, criteriaScores := [(jobProspects, 0)] },
       { country := countryB, score := 1, criteriaScores := [(jobProspects, 1)] }] =
      [{ country := countryB, score := 1, criteriaScores := [(jobProspects, 1)] },
       { country := countryA, score := 0, criteriaScores := [(jobProspects, 0)] }] := by
    norm_num [sortDescBy, insertDescBy]
  have hround1 : pyRound 4 ((1 : ℚ)) = 1 := pyRound_int 4 1 1 (by norm_num)
  have hround0 : pyRound 4 ((0 : ℚ)) = 0 := pyRound_int 4 0 0 (by norm_num)
  have hround100 : pyRound 2 ((100 : ℚ)) = 100 := pyRound_int 2 100 100 (by norm_num)
  have hround00 : pyRound 2 ((0 : ℚ)) = 0 := pyRound_int 2 0 0 (by norm_num)
  have hrange' : List.range' 1 2 = [1, 2] := rfl
  simp only [analyze, validate_twoCrit, Option.getD_none, hpre, hnorm, hws,
    postProcessResults, hsort, List.head?_cons, List.length_cons, List.length_nil, hrange',
    List.zip_cons_cons, List.zip_nil_right, List.map_cons, List.map_nil]
  norm_num [hround1, hround0, hround100, hround00]

/-- C5 counterexample: on a valid input whose `climate_score` criterion has
no weight key, `score` completes — but no result records any contribution
entry for `climate_score`: the breakdown omits the weightless criterion
instead of recording it, refuting "each result still records each
criterion's weighted contribution". -/
theorem C5_counterexample :
    (∃ out, analyze sqrtZeroQ dataTwoCrit weightsJobOnly namesAB none = .ok out ∧
      out ≠ [] ∧ ∀ r ∈ out, alookup climateScore r.criteriaScores = none) ∧
    climateScore ∈ dataTwoCrit.map Prod.fst := by
  refine ⟨⟨_, analyzeTwoCrit_eval, by simp, ?_⟩, by decide⟩
  intro r hr
  simp only [List.mem_cons, List.not_mem_nil, or_false] at hr
  rcases hr with rfl | rfl <;> decide

/-- C5 witness: the amended theorem applied to the concrete run whose
`climate_score` criterion has no weight key. -/
theorem C5_witness :
    (analyze sqrtZeroQ dataTwoCrit weightsJobOnly namesAB none).isOk = true ∧
    (∀ normalizedData : List (String × List ℚ), ∀ i ∈ List.range namesAB.length,
      ∃ r, (calculateWeightedScores normalizedData weightsJobOnly namesAB).get? i = some r ∧
        r.score = (normalizedData.map fun c =>
          ((alookup (c.1 ++ weightSuffix) weightsJobOnly).getD 0) * c.2.getD i 0).sum ∧
        alookup climateScore r.criteriaScores = none ∧
        ∀ c ∈ normalizedData, (alookup (c.1 ++ weightSuffix) weightsJobOnly).isSome →
          (alookup c.1 r.criteriaScores).isSome) :=
  C5_missing_weight sqrtZeroQ dataTwoCrit weightsJobOnly namesAB none climateScore
    validate_twoCrit (by decide)

/-! ### C8 — ranks and the stable descending sort -/

theorem insertDescBy_length (key : α → K) (x : α) :
    ∀ l : List α, (insertDescBy key x l).length = l.length + 1
  | [] => rfl
  | y :: ys => by
    simp only [insertDescBy]
    split_ifs with h
    · simp [insertDescBy_length key x ys]
    · simp

theorem mem_insertDescBy (key : α → K) (x a : α) :
    ∀ l : List α, a ∈ insertDescBy key x l ↔ a = x ∨ a ∈ l
  | [] => by simp [insertDescBy]
  | y :: ys => by
    simp only [insertDescBy]
    split_ifs with h
    · simp only [List.mem_cons, mem_insertDescBy key x a ys]
      tauto
    · simp only [List.mem_cons]

theorem sortDescBy_length (key : α → K) (l : List α) :
    (sortDescBy key l).length = l.length := by
  induction l with
  | nil => rfl
  | cons x xs ih =>
    show (insertDescBy key x (sortDescBy key xs)).length = xs.length + 1
    rw [insertDescBy_length, ih]

theorem mem_sortDescBy (key : α → K) {l : List α} {a : α} :
    a ∈ sortDescBy key l ↔ a ∈ l := by
  induction l with
  | nil => exact Iff.rfl
  | cons x xs ih =>
    show a ∈ insertDescBy key x (sortDescBy key xs) ↔ _
    rw [mem_insertDescBy, ih, List.mem_cons]

/-- Inserting an element that is `R`-related to everything already in a list
that is sorted-with-history preserves the sorted-with-history invariant: in
the output, for any earlier element `a` and later element `b`, either the key
strictly dropped or the keys tie and `a R b` (the element inserted first in
input order stays first among equal keys). -/
theorem insertDescBy_pairwise (key : α → K) (R : α → α → Prop) (x : α) (m : List α)
    (hm : m.Pairwise fun a b => key b < key a ∨ (key a = key b ∧ R a b))
    (hx : ∀ b ∈ m, R x b) :
    (insertDescBy key x m).Pairwise fun a b => key b < key a ∨ (key a = key b ∧ R a b) := by
  induction m with
  | nil => simp [insertDescBy]
  | cons y ys ih =>
    rcases List.pairwise_cons.mp hm with ⟨hy, hys⟩
    simp only [insertDescBy]
    split_ifs with h
    · refine List.pairwise_cons.mpr ⟨?_, ih hys fun b hb => hx b (List.mem_cons_of_mem y hb)⟩
      intro b hb
      rcases (mem_insertDescBy key x b ys).mp hb with rfl | hb
      · exact Or.inl h
      · exact hy b hb
    · refine List.pairwise_cons.mpr ⟨?_, hm⟩
      intro b hb
      rcases List.mem_cons.mp hb with rfl | hb
      · rcases lt_or_eq_of_le (not_lt.mp h) with hlt | heq
        · exact Or.inl hlt
        · exact Or.inr ⟨heq.symm, hx b (List.mem_cons_self ..)⟩
      · have hby : key b ≤ key y := by
          rcases hy b hb with h1 | h1
          · exact h1.le
          · exact h1.1.symm.le
        rcases lt_or_eq_of_le (le_trans hby (not_lt.mp h)) with hlt | heq
        · exact Or.inl hlt
        · exact Or.inr ⟨heq.symm, hx b (List.mem_cons_of_mem y hb)⟩

/-- Stability of the descending sort: if the input is `R`-ordered, then in
the output consecutive-in-order elements either strictly drop in key or tie
with their input order (`R`) preserved. -/
theorem sortDescBy_pairwise (key : α → K) (R : α → α → Prop) (l : List α)
    (hl : l.Pairwise R) :
    (sortDescBy key l).Pairwise fun a b => key b < key a ∨ (key a = key b ∧ R a b) := by
  induction l with
  | nil => simp [sortDescBy]
  | cons x xs ih =>
    rcases List.pairwise_cons.mp hl with ⟨hx, hxs⟩
    show (insertDescBy key x (sortDescBy key xs)).Pairwise _
    exact insertDescBy_pairwise key R x (sortDescBy key xs) (ih hxs)
      fun b hb => hx b ((mem_sortDescBy key).mp hb)

theorem pairwise_trivial (l : List α) : l.Pairwise fun _ _ => True := by
  induction l with
  | nil => exact List.Pairwise.nil
  | cons x xs ih => exact List.Pairwise.cons (fun _ _ => trivial) ih

theorem sortDescBy_sorted (key : α → K) (l : List α) :
    (sortDescBy key l).Pairwise fun a b => key b ≤ key a :=
  (sortDescBy_pairwise key (fun _ _ => True) l (pairwise_trivial l)).imp fun h => by
    rcases h with h | h
    · exact h.le
    · exact h.1.ge

theorem pairwise_zip_left {R : α → α → Prop} :
    ∀ {l : List α} {r : List β}, l.Pairwise R → (l.zip r).Pairwise fun p q => R p.1 q.1
  | [], _, _ => by simp
  | a :: l, [], _ => by simp
  | a :: l, b :: r, h => by
    rcases List.pairwise_cons.mp h with ⟨ha, hl⟩
    refine List.pairwise_cons.mpr ⟨?_, pairwise_zip_left hl⟩
    intro q hq
    exact ha q.1 (List.of_mem_zip hq).1

/-- Rounding half to even is monotone, so the rounded scores inherit the
descending order of the raw scores. -/
theorem pyRound_mono (d : ℕ) {x y : K} (hxy : x ≤ y) : pyRound d x ≤ pyRound d y := by
  have hpow : (0 : K) < 10 ^ d := by positivity
  have hab : x * 10 ^ d ≤ y * 10 ^ d := mul_le_mul_of_nonneg_right hxy hpow.le
  have hf : ⌊x * (10 : K) ^ d⌋ ≤ ⌊y * (10 : K) ^ d⌋ := Int.floor_le_floor hab
  have hfx := Int.floor_le (x * (10 : K) ^ d)
  have hfy := Int.lt_floor_add_one (y * (10 : K) ^ d)
  simp only [pyRound]
  rw [div_le_div_iff_of_pos_right hpow, Int.cast_le]
  rcases lt_or_eq_of_le hf with hlt | heq
  · split_ifs <;> omega
  · rw [← heq]
    split_ifs with h1 h2 h3 h4 h5 h6 <;> first
      | omega
      | (exfalso; rw [← heq] at *; linarith)


theorem cws_length (normalizedData : List (String × List K)) (weights : List (String × K))
    (countryNames : List String) :
    (calculateWeightedScores normalizedData weights countryNames).length =
      countryNames.length := by
  simp [calculateWeightedScores]

/-- The raw results come out in country order: with distinct country names,
the index of the country of the `i`-th raw result is `i`, so the raw list is
strictly ordered by input position. -/
theorem cws_pairwise_idx (normalizedData : List (String × List K))
    (weights : List (String × K)) (countryNames : List String)
    (hnodup : countryNames.Nodup) :
    (calculateWeightedScores normalizedData weights countryNames).Pairwise
      fun a b => countryNames.indexOf a.country < countryNames.indexOf b.country := by
  unfold calculateWeightedScores
  rw [List.pairwise_map]
  refine List.Pairwise.imp_of_mem ?_ (List.pairwise_lt_range _)
  intro i j hi hj hij
  have hi' : i < countryNames.length := List.mem_range.mp hi
  have hj' : j < countryNames.length := List.mem_range.mp hj
  have hgi : countryNames.getD i emptyString = countryNames[i] := by
    rw [List.getD_eq_getElem?_getD, List.getElem?_eq_getElem hi', Option.getD_some]
  have hgj : countryNames.getD j emptyString = countryNames[j] := by
    rw [List.getD_eq_getElem?_getD, List.getElem?_eq_getElem hj', Option.getD_some]
  dsimp only
  rw [hgi, hgj, List.indexOf_getElem hnodup i hi', List.indexOf_getElem hnodup j hj']
  exact hij

theorem postProcess_map_rank (rs : List (RawResult K)) :
    (postProcessResults rs).map (fun r => r.rank) = List.range' 1 rs.length := by
  unfold postProcessResults
  dsimp only
  have hlen : (sortDescBy (fun r : RawResult K => r.score) rs).length = rs.length :=
    sortDescBy_length _ _
  rw [List.map_map]
  show List.map Prod.snd ((sortDescBy (fun r : RawResult K => r.score) rs).zip
      (List.range' 1 (sortDescBy (fun r : RawResult K => r.score) rs).length)) =
    List.range' 1 rs.length
  rw [List.map_snd_zip _ _ (by simp [List.length_range']), hlen]

theorem postProcess_pairwise_score (rs : List (RawResult K)) :
    (postProcessResults rs).Pairwise fun a b => b.score ≤ a.score := by
  unfold postProcessResults
  rw [List.pairwise_map]
  have h2 := pairwise_zip_left (r := List.range' 1
      (sortDescBy (fun r : RawResult K => r.score) rs).length)
    (sortDescBy_sorted (fun r : RawResult K => r.score) rs)
  exact h2.imp fun h => pyRound_mono 4 h

/-- C8: on every successful run the ranks are exactly `1..N` in output
order (no gaps, no duplicates), the output scores are sorted descending
(rounding is monotone), and the sort underlying the output is stable: between
any earlier and later element of the sorted raw results, either the raw score
strictly drops, or the scores tie and the earlier element comes from a
strictly earlier input position (first-seen order of the distinct country
names). -/
theorem C8_ranks_sorted_stable (sqrt : K → K) (data : List (String × List K))
    (weights : List (String × K)) (countryNames : List String)
    (config : Option NormalizationConfig) (out : List (DecisionResult K))
    (h : analyze sqrt data weights countryNames config = .ok out) :
    out.map (fun r => r.rank) = List.range' 1 countryNames.length ∧
    out.Pairwise (fun a b => b.score ≤ a.score) ∧
    (sortDescBy (fun r : RawResult K => r.score)
      (calculateWeightedScores
        (normalizeData sqrt (preprocessData data) (config.getD defaultConfig))
        weights countryNames)).Pairwise
      (fun a b => b.score < a.score ∨ (a.score = b.score ∧
        countryNames.indexOf a.country < countryNames.indexOf b.country)) := by
  cases hv : validateInputs data weights countryNames with
  | error e =>
    rw [analyze, hv] at h
    cases h
  | ok u =>
    cases u
    rw [analyze, hv] at h
    injection h with h
    obtain ⟨-, -, -, -, -, hnodup⟩ := (validateInputs_ok_iff data weights countryNames).mp hv
    subst h
    refine ⟨?_, postProcess_pairwise_score _, ?_⟩
    · rw [postProcess_map_rank, cws_length]
    · exact sortDescBy_pairwise _ _ _ (cws_pairwise_idx _ _ _ hnodup)

/-- C8 witness: the theorem applied to the concrete reference run. -/
theorem C8_witness :
    ([{ country := countryB, score := 1, rank := 1, percentage := 100,
        criteriaScores := [(jobProspects, 1)] },
      { country := countryA, score := 0, rank := 2, percentage := 0,
        criteriaScores := [(jobProspects, (0 : ℚ))] }] : List (DecisionResult ℚ)).map
        (fun r => r.rank) = List.range' 1 namesAB.length ∧
    ([{ country := countryB, score := 1, rank := 1, percentage := 100,
        criteriaScores := [(jobProspects, 1)] },
      { country := countryA, score := 0, rank := 2, percentage := 0,
        criteriaScores := [(jobProspects, (0 : ℚ))] }] : List (DecisionResult ℚ)).Pairwise
      (fun a b => b.score ≤ a.score) ∧
    (sortDescBy (fun r : RawResult ℚ => r.score)
      (calculateWeightedScores
        (normalizeData sqrtZeroQ (preprocessData dataTwoCrit)
          ((none : Option NormalizationConfig).getD defaultConfig))
        weightsJobOnly namesAB)).Pairwise
      (fun a b => b.score < a.score ∨ (a.score = b.score ∧
        namesAB.indexOf a.country < namesAB.indexOf b.country)) :=
  C8_ranks_sorted_stable sqrtZeroQ dataTwoCrit weightsJobOnly namesAB none _ analyzeTwoCrit_eval


/-! ### C3 — percentages and the zero-max guard -/

/-- The raw (pre-rounding) results `analyze` post-processes: preprocessing,
normalization and weighting applied in order. -/
def rawResults (sqrt : K → K) (data : List (String × List K)) (weights : List (String × K))
    (countryNames : List String) (config : Option NormalizationConfig) : List (RawResult K) :=
  calculateWeightedScores (normalizeData sqrt (preprocessData data) (config.getD defaultConfig))
    weights countryNames

/-- The maximum raw score, read off the head of the descending sort exactly
as `_post_process_results` reads `results[0]['score']` (with its `1.0`
stand-in for an empty list). -/
def maxRaw (sqrt : K → K) (data : List (String × List K)) (weights : List (String × K))
    (countryNames : List String) (config : Option NormalizationConfig) : K :=
  match (sortDescBy (fun r : RawResult K => r.score)
      (rawResults sqrt data weights countryNames config)).head? with
  | some r => r.score
  | none => 1

/-- The percentage divisor of `_post_process_results`: the maximum raw score,
replaced by `1.0` when it is exactly `0`. -/
def maxScoreGuard (rs : List (RawResult K)) : K :=
  let m : K := match (sortDescBy (fun r : RawResult K => r.score) rs).head? with
    | some r => r.score
    | none => 1
  if m = 0 then 1 else m

theorem analyze_ok_eq (sqrt : K → K) (data : List (String × List K))
    (weights : List (String × K)) (countryNames : List String)
    (config : Option NormalizationConfig)
    (hval : validateInputs data weights countryNames = .ok ()) :
    analyze sqrt data weights countryNames config =
      .ok (postProcessResults (rawResults sqrt data weights countryNames config)) := by
  rw [analyze, hval]
  rfl

theorem postProcess_eq (rs : List (RawResult K)) :
    postProcessResults rs =
      ((sortDescBy (fun r : RawResult K => r.score) rs).zip
        (List.range' 1 (sortDescBy (fun r : RawResult K => r.score) rs).length)).map
        fun p => { country := p.1.country, score := pyRound 4 p.1.score, rank := p.2,
                   percentage := pyRound 2 (p.1.score / maxScoreGuard rs * 100),
                   criteriaScores := p.1.criteriaScores } := rfl

theorem postProcess_mem {rs : List (RawResult K)} {r : DecisionResult K}
    (hr : r ∈ postProcessResults rs) :
    ∃ s ∈ sortDescBy (fun x : RawResult K => x.score) rs,
      r.score = pyRound 4 s.score ∧
      r.percentage = pyRound 2 (s.score / maxScoreGuard rs * 100) := by
  rw [postProcess_eq] at hr
  rcases List.mem_map.mp hr with ⟨p, hp, rfl⟩
  exact ⟨p.1, (List.of_mem_zip hp).1, rfl, rfl⟩

theorem postProcess_head (rs : List (RawResult K)) (s₀ : RawResult K) (tl : List (RawResult K))
    (hs : sortDescBy (fun r : RawResult K => r.score) rs = s₀ :: tl) :
    (postProcessResults rs).head? = some
      { country := s₀.country, score := pyRound 4 s₀.score, rank := 1,
        percentage := pyRound 2 (s₀.score / maxScoreGuard rs * 100),
        criteriaScores := s₀.criteriaScores } := by
  rw [postProcess_eq, hs]
  simp [List.range']

theorem sorted_head_ge (key : α → K) (l : List α) (s₀ : α) (tl : List α)
    (hs : sortDescBy key l = s₀ :: tl) : ∀ s ∈ sortDescBy key l, key s ≤ key s₀ := by
  intro s hsm
  rw [hs] at hsm
  rcases List.mem_cons.mp hsm with rfl | hsm
  · exact le_refl _
  · have := sortDescBy_sorted key l
    rw [hs] at this
    exact (List.pairwise_cons.mp this).1 s hsm

theorem alookup_mem {l : List (String × α)} {k : String} {v : α}
    (h : alookup k l = some v) : (k, v) ∈ l := by
  induction l with
  | nil => cases h
  | cons p rest ih =>
    obtain ⟨q, w⟩ := p
    simp only [alookup] at h
    split_ifs at h with hk
    · injection h with h
      subst hk
      subst h
      exact List.mem_cons_self _ _
    · exact List.mem_cons_of_mem _ (ih h)

theorem getD_nonneg {l : List K} (h : ∀ v ∈ l, 0 ≤ v) (i : ℕ) : 0 ≤ l.getD i 0 := by
  rw [List.getD_eq_getElem?_getD]
  cases he : l[i]? with
  | none => simp
  | some v =>
    rw [Option.getD_some]
    exact h v (List.getElem?_mem he)

/-- Min-max normalized values are non-negative (in fact they lie in
`[0, 1]`, but non-negativity is what the zero-max analysis needs). -/
theorem minMaxNormalize_nonneg {values : List K} {ct : CriteriaType} {v : K}
    (hv : v ∈ minMaxNormalize values ct) : 0 ≤ v := by
  simp only [minMaxNormalize] at hv
  have hne : values ≠ [] := by
    rintro rfl
    simp [List.replicate] at hv
  have hlm : listMin values ≤ listMax values := listMin_le (listMax_mem hne)
  split_ifs at hv with h1 h2
  · rw [List.eq_of_mem_replicate hv]
    exact zero_le_one
  · have hlt : listMin values < listMax values := lt_of_le_of_ne hlm fun h => h1 h.symm
    rcases List.mem_map.mp hv with ⟨x, hx, rfl⟩
    exact div_nonneg (sub_nonneg.mpr (le_listMax hx)) (sub_nonneg.mpr hlt.le)
  · have hlt : listMin values < listMax values := lt_of_le_of_ne hlm fun h => h1 h.symm
    rcases List.mem_map.mp hv with ⟨x, hx, rfl⟩
    exact div_nonneg (sub_nonneg.mpr (listMin_le hx)) (sub_nonneg.mpr hlt.le)

theorem normalizeData_minmax_nonneg (sqrt : K → K) (data : List (String × List K))
    (config : NormalizationConfig) (hm : config.method = .min_max)
    {c : String × List K} (hc : c ∈ normalizeData sqrt data config)
    {v : K} (hv : v ∈ c.2) : 0 ≤ v := by
  unfold normalizeData at hc
  rcases List.mem_map.mp hc with ⟨p, hp, rfl⟩
  simp only [hm] at hv
  exact minMaxNormalize_nonneg hv

theorem cws_score_nonneg (normalizedData : List (String × List K))
    (weights : List (String × K)) (countryNames : List String)
    (hw : ∀ p ∈ weights, 0 ≤ p.2)
    (hnd : ∀ c ∈ normalizedData, ∀ v ∈ c.2, 0 ≤ v) :
    ∀ r ∈ calculateWeightedScores normalizedData weights countryNames, 0 ≤ r.score := by
  intro r hr
  unfold calculateWeightedScores at hr
  rcases List.mem_map.mp hr with ⟨i, hi, rfl⟩
  dsimp only
  apply List.sum_nonneg
  intro x hx
  rcases List.mem_map.mp hx with ⟨pr, hpr, rfl⟩
  unfold criterionContribs at hpr
  rcases List.mem_filterMap.mp hpr with ⟨c, hc, heq⟩
  cases halo : alookup (c.1 ++ weightSuffix) weights with
  | none => rw [halo] at heq; cases heq
  | some w =>
    rw [halo, Option.map_some'] at heq
    injection heq with heq
    subst heq
    exact mul_nonneg (hw _ (alookup_mem halo)) (getD_nonneg (hnd c hc) i)

/-- C3 (amended): the top percentage is exactly `100.00` iff the maximum raw
score is nonzero — in particular it is still `100.00` when every score is
negative.  When the maximum raw score is exactly `0` the divisor is replaced
by `1.0`, so each percentage is `round(raw · 100, 2)` — `0` for the top
result, but possibly nonzero (negative) for the others; under min-max
normalization all raw scores are `≥ 0`, so in that case they are all `0` and
every percentage is `0`. -/
theorem C3_top_percentage (sqrt : K → K) (data : List (String × List K))
    (weights : List (String × K)) (countryNames : List String)
    (config : Option NormalizationConfig) (out : List (DecisionResult K))
    (h : analyze sqrt data weights countryNames config = .ok out) :
    out ≠ [] ∧
    ((out.head?.map fun r => r.percentage) = some 100 ↔
      maxRaw sqrt data weights countryNames config ≠ 0) ∧
    (maxRaw sqrt data weights countryNames config = 0 →
      ∀ r ∈ out, ∃ s ∈ sortDescBy (fun x : RawResult K => x.score)
          (rawResults sqrt data weights countryNames config),
        r.percentage = pyRound 2 (s.score * 100)) ∧
    ((config.getD defaultConfig).method = .min_max →
      maxRaw sqrt data weights countryNames config = 0 →
      ∀ r ∈ out, r.percentage = 0) := by
  cases hv : validateInputs data weights countryNames with
  | error e => rw [analyze, hv] at h; cases h
  | ok u =>
    cases u
    rw [analyze_ok_eq sqrt data weights countryNames config hv] at h
    injection h with h
    subst h
    obtain ⟨-, hwne, hnne, -, hw0, -⟩ := (validateInputs_ok_iff data weights countryNames).mp hv
    set rs := rawResults sqrt data weights countryNames config with hrs
    have hlenrs : rs.length = countryNames.length := cws_length _ _ _
    have hrsne : rs ≠ [] := by
      intro hnil
      rw [hnil] at hlenrs
      exact hnne (List.length_eq_zero.mp hlenrs.symm)
    have hsne : sortDescBy (fun r : RawResult K => r.score) rs ≠ [] := by
      intro hnil
      have := sortDescBy_length (fun r : RawResult K => r.score) rs
      rw [hnil] at this
      exact hrsne (List.length_eq_zero.mp this.symm)
    obtain ⟨s₀, tl, hs⟩ := List.exists_cons_of_ne_nil hsne
    have hM : maxRaw sqrt data weights countryNames config = s₀.score := by
      rw [maxRaw, ← hrs, hs]
      rfl
    have hguard : maxScoreGuard rs = if s₀.score = 0 then 1 else s₀.score := by
      rw [maxScoreGuard, hs]
      rfl
    have h0iff : maxRaw sqrt data weights countryNames config = 0 ↔ s₀.score = 0 := by
      rw [hM]
    have houtne : postProcessResults rs ≠ [] := by
      rw [postProcess_eq, hs]
      simp [List.range']
    refine ⟨houtne, ?_, ?_, ?_⟩
    · rw [postProcess_head rs s₀ tl hs, hM]
      constructor
      · intro h100 hM0
        rw [hguard, if_pos hM0, hM0] at h100
        simp only [Option.map_some', Option.some.injEq] at h100
        rw [zero_div, zero_mul, show (0 : K) = ((0 : ℤ) : K) by norm_num,
          pyRound_intCast] at h100
        exact absurd h100.symm (by norm_num)
      · intro hM0
        rw [hguard, if_neg hM0]
        simp only [Option.map_some', Option.some.injEq]
        rw [div_self hM0, one_mul, show (100 : K) = ((100 : ℤ) : K) by norm_num,
          pyRound_intCast]
    · intro hM0 r hr
      rcases postProcess_mem hr with ⟨s, hsm, -, hpct⟩
      refine ⟨s, hsm, ?_⟩
      rw [hpct, hguard, if_pos (h0iff.mp hM0), div_one]
    · intro hmm hM0 r hr
      rcases postProcess_mem hr with ⟨s, hsm, -, hpct⟩
      have hnn : 0 ≤ s.score := by
        have hmem : s ∈ rs := (mem_sortDescBy _).mp hsm
        refine cws_score_nonneg _ weights countryNames hw0 ?_ s hmem
        intro c hc v hv
        exact normalizeData_minmax_nonneg sqrt (preprocessData data) _ hmm hc hv
      have hle : s.score ≤ s₀.score := sorted_head_ge _ rs s₀ tl hs s hsm
      have hzero : s.score = 0 := le_antisymm ((h0iff.mp hM0) ▸ hle) hnn
      rw [hpct, hguard, if_pos (h0iff.mp hM0), hzero, zero_div, zero_mul,
        show (0 : K) = ((0 : ℤ) : K) by norm_num, pyRound_intCast]

/-- Data for the C3 counterexample: one benefit criterion whose values are
all `≤ 0`, so under vector normalization every weighted score is `≤ 0`. -/
def dataNeg : List (String × List ℝ) := [(jobProspects, [0, -1])]

/-- The single job-prospects weight, over the reals. -/
def weightsJobOnlyR : List (String × ℝ) := [(jobProspects ++ weightSuffix, 1)]

/-- Vector normalization with the criteria types of `SAWService.__init__`. -/
def configVec : NormalizationConfig :=
  { method := .vector, criteriaTypes := defaultCriteriaTypes }

theorem validate_neg : validateInputs dataNeg weightsJobOnlyR namesAB = .ok () := by
  apply (validateInputs_ok_iff _ _ _).mpr
  refine ⟨by simp [dataNeg], by simp [weightsJobOnlyR], by simp [namesAB], ?_, ?_, ?_⟩
  · intro p hp
    simp only [dataNeg, List.mem_cons, List.not_mem_nil, or_false] at hp
    subst hp
    simp [namesAB]
  · intro p hp
    simp only [weightsJobOnlyR, List.mem_cons, List.not_mem_nil, or_false] at hp
    subst hp
    norm_num
  · decide

theorem analyzeNeg_eval :
    analyze Real.sqrt dataNeg weightsJobOnlyR namesAB (some configVec) =
      .ok [{ country := countryA, score := 0, rank := 1, percentage := 0,
             criteriaScores := [(jobProspects, 0)] },
           { country := countryB, score := -1, rank := 2, percentage := -100,
             criteriaScores := [(jobProspects, -1)] }] := by
  have hpre : preprocessData dataNeg = dataNeg := by
    simp [preprocessData, dataNeg, handleOutliers_pair]
  have halo : alookup jobProspects defaultCriteriaTypes = some .benefit := by decide
  have hvec : vectorNormalize Real.sqrt [(0 : ℝ), -1] .benefit = [0, -1] := by
    simp only [vectorNormalize, List.map_cons, List.map_nil, List.sum_cons, List.sum_nil]
    norm_num [Real.sqrt_one]
    exact fun h => nomatch h
  have hnorm : normalizeData Real.sqrt dataNeg configVec = [(jobProspects, [(0 : ℝ), -1])] := by
    simp only [normalizeData, dataNeg, configVec, List.map_cons, List.map_nil,
      halo, Option.getD_some, hvec]
  have hlook : alookup (jobProspects ++ weightSuffix) weightsJobOnlyR = some 1 := by
    simp [alookup, weightsJobOnlyR]
  have hrange : List.range namesAB.length = [0, 1] := rfl
  have hws : calculateWeightedScores [(jobProspects, [(0 : ℝ), -1])] weightsJobOnlyR namesAB =
      [{ country := countryA, score := 0, criteriaScores := [(jobProspects, 0)] },
       { country := countryB, score := -1, criteriaScores := [(jobProspects, -1)] }] := by
    simp only [calculateWeightedScores, criterionContribs, hrange, List.map_cons, List.map_nil,
      List.filterMap_cons, List.filterMap_nil, hlook, Option.map_some',
      List.sum_cons, List.sum_nil]
    norm_num [namesAB, List.getD]
  have hsort : sortDescBy (fun r : RawResult ℝ => r.score)
      [{ country := countryA, score := 0, criteriaScores := [(jobProspects, 0)] },
       { country := countryB, score := -1, criteriaScores := [(jobProspects, -1)] }] =
      [{ country := countryA, score := 0, criteriaScores := [(jobProspects, 0)] },
       { country := countryB, score := -1, criteriaScores := [(jobProspects, -1)] }] := by
    norm_num [sortDescBy, insertDescBy]
  have hround0 : pyRound 4 ((0 : ℝ)) = 0 := pyRound_int 4 0 0 (by norm_num)
  have hroundm1 : pyRound 4 ((-1 : ℝ)) = -1 := pyRound_int 4 (-1) (-1) (by norm_num)
  have hround00 : pyRound 2 ((0 : ℝ)) = 0 := pyRound_int 2 0 0 (by norm_num)
  have hroundm100 : pyRound 2 ((-100 : ℝ)) = -100 := pyRound_int 2 (-100) (-100) (by norm_num)
  have hrange' : List.range' 1 2 = [1, 2] := rfl
  simp only [analyze, validate_neg, Option.getD_some, hpre, hnorm, hws,
    postProcessResults, hsort, List.head?_cons, List.length_cons, List.length_nil, hrange',
    List.zip_cons_cons, List.zip_nil_right, List.map_cons, List.map_nil]
  norm_num [hround0, hroundm1, hround00, hroundm100]

/-- C3 counterexample: a valid vector-normalization run in which every
computed score is `≤ 0`, yet the output percentages are not all `0` — the
second-ranked result reports `-100` — refuting the claim that when all
scores are `≤ 0` the percentage of every result is `0`. -/
theorem C3_counterexample :
    ∃ out : List (DecisionResult ℝ),
      analyze Real.sqrt dataNeg weightsJobOnlyR namesAB (some configVec) = .ok out ∧
      (∀ r ∈ out, r.score ≤ 0) ∧ ¬ (∀ r ∈ out, r.percentage = 0) := by
  refine ⟨_, analyzeNeg_eval, ?_, ?_⟩
  · intro r hr
    rcases List.mem_cons.mp hr with rfl | hr
    · norm_num
    rcases List.mem_cons.mp hr with rfl | hr
    · norm_num
    · cases hr
  · intro hall
    have hB := hall { country := countryB, score := -1, rank := 2, percentage := -100,
                      criteriaScores := [(jobProspects, -1)] } (by simp)
    norm_num at hB

/-- The output list of `analyzeTwoCrit_eval`, named for the C3 witness. -/
def outTwoCrit : List (DecisionResult ℚ) :=
  [{ country := countryB, score := 1, rank := 1, percentage := 100,
     criteriaScores := [(jobProspects, 1)] },
   { country := countryA, score := 0, rank := 2, percentage := 0,
     criteriaScores := [(jobProspects, 0)] }]

/-- Witness for C3 at a concrete run whose maximum raw score is `1`. -/
theorem C3_witness :
    outTwoCrit ≠ [] ∧
    ((outTwoCrit.head?.map fun r => r.percentage) = some 100 ↔
      maxRaw sqrtZeroQ dataTwoCrit weightsJobOnly namesAB none ≠ 0) ∧
    (maxRaw sqrtZeroQ dataTwoCrit weightsJobOnly namesAB none = 0 →
      ∀ r ∈ outTwoCrit, ∃ s ∈ sortDescBy (fun x : RawResult ℚ => x.score)
          (rawResults sqrtZeroQ dataTwoCrit weightsJobOnly namesAB none),
        r.percentage = pyRound 2 (s.score * 100)) ∧
    (((none : Option NormalizationConfig).getD defaultConfig).method = .min_max →
      maxRaw sqrtZeroQ dataTwoCrit weightsJobOnly namesAB none = 0 →
      ∀ r ∈ outTwoCrit, r.percentage = 0) :=
  C3_top_percentage sqrtZeroQ dataTwoCrit weightsJobOnly namesAB none outTwoCrit
    analyzeTwoCrit_eval

/-! ### C4 — the perturbed runs and report entries of the sensitivity sweep -/

theorem alookup_dictInsert_self (l : List (String × α)) (k : String) (v : α) :
    alookup k (dictInsert l k v) = some v := by
  induction l with
  | nil => simp [dictInsert, alookup]
  | cons p rest ih =>
    obtain ⟨q, w⟩ := p
    by_cases h : q = k
    · subst h
      simp [dictInsert, alookup]
    · simp [dictInsert, alookup, h, ih]

theorem alookup_dictInsert_ne (l : List (String × α)) (k q : String) (v : α) (h : k ≠ q) :
    alookup q (dictInsert l k v) = alookup q l := by
  induction l with
  | nil => simp [dictInsert, alookup, h]
  | cons p rest ih =>
    obtain ⟨k₀, w₀⟩ := p
    by_cases hk : k₀ = k
    · subst hk
      simp [dictInsert, alookup, h]
    · by_cases hq : k₀ = q
      · subst hq
        simp [dictInsert, alookup, hk]
      · simp [dictInsert, alookup, hk, hq, ih]

/-- The last key of the list that is a `_weight` key stripping to `name` —
the key whose `_analyze_criterion_sensitivity` record the final
`sensitivity_results[name]` holds, since each later dict assignment to the
same stripped name overwrites the earlier one. -/
def lastWeightKey (name : String) : List String → Option String
  | [] => none
  | k :: rest =>
    match lastWeightKey name rest with
    | some q => some q
    | none =>
      if strEndsWith k weightSuffix = true ∧ stripWeightKey k = name then some k else none

theorem buildEntries_alookup (sqrt : K → K) (data : List (String × List K))
    (baseWeights : List (String × K)) (countryNames : List String)
    (variationRange : List K) (baselineRanking : List String)
    (baselineScores : List (String × K)) :
    ∀ (ws : List (String × K)) (acc : List (String × CriterionSensitivity K)) (name : String),
      alookup name (buildEntries sqrt data baseWeights countryNames variationRange
          baselineRanking baselineScores ws acc) =
        match lastWeightKey name (ws.map Prod.fst) with
        | some k => some (analyzeCriterionSensitivity sqrt data baseWeights countryNames k
            variationRange baselineRanking baselineScores)
        | none => alookup name acc := by
  intro ws
  induction ws with
  | nil =>
    intro acc name
    rfl
  | cons p rest ih =>
    intro acc name
    obtain ⟨k, w⟩ := p
    simp only [buildEntries, List.map_cons]
    rw [ih]
    cases hrest : lastWeightKey name (rest.map Prod.fst) with
    | some q => simp only [lastWeightKey, hrest]
    | none =>
      simp only [lastWeightKey, hrest]
      by_cases hc : strEndsWith k weightSuffix = true ∧ stripWeightKey k = name
      · rw [if_pos hc, if_pos hc.1, hc.2]
        exact alookup_dictInsert_self acc name _
      · rw [if_neg hc]
        by_cases he : strEndsWith k weightSuffix = true
        · rw [if_pos he]
          exact alookup_dictInsert_ne acc _ name _ fun hs => hc ⟨he, hs⟩
        · rw [if_neg he]

theorem alookup_modifiedWeightsFor_self (baseWeights : List (String × K)) (k : String) (v : K) :
    alookup k (modifiedWeightsFor baseWeights k v) =
      (alookup k baseWeights).map fun w => w * (1 + v) := by
  induction baseWeights with
  | nil => rfl
  | cons p rest ih =>
    obtain ⟨q, w⟩ := p
    simp only [modifiedWeightsFor, List.map_cons] at ih ⊢
    by_cases h : q = k
    · subst h
      rw [if_pos rfl]
      simp [alookup]
    · rw [if_neg h]
      simp only [alookup, if_neg h]
      exact ih

theorem alookup_modifiedWeightsFor_ne (baseWeights : List (String × K)) (k q : String) (v : K)
    (h : q ≠ k) :
    alookup q (modifiedWeightsFor baseWeights k v) = alookup q baseWeights := by
  induction baseWeights with
  | nil => rfl
  | cons p rest ih =>
    obtain ⟨k₀, w₀⟩ := p
    simp only [modifiedWeightsFor, List.map_cons] at ih ⊢
    by_cases hk : k₀ = k
    · subst hk
      rw [if_pos rfl]
      have hq : ¬k₀ = q := fun hh => h hh.symm
      simp only [alookup, if_neg hq]
      exact ih
    · rw [if_neg hk]
      by_cases hq : k₀ = q
      · simp [alookup, hq]
      · simp only [alookup, if_neg hq]
        exact ih

/-- A successful baseline run determines the whole sensitivity report. -/
theorem performSensitivity_ok (sqrt : K → K) (data : List (String × List K))
    (baseWeights : List (String × K)) (countryNames : List String) (variationRange : List K)
    (out : List (DecisionResult K))
    (hb : analyze sqrt data baseWeights countryNames none = .ok out) :
    performSensitivityAnalysis sqrt data baseWeights countryNames (some variationRange) = .ok
      { baselineRanking := out.map fun r => r.country
        baselineScores := out.map fun r => (r.country, r.score)
        topCountry := (out.map fun r => r.country).head?
        criterionSensitivity := buildEntries sqrt data baseWeights countryNames variationRange
          (out.map fun r => r.country) (out.map fun r => (r.country, r.score)) baseWeights []
        overall := calculateOverallSensitivity (buildEntries sqrt data baseWeights countryNames
          variationRange (out.map fun r => r.country) (out.map fun r => (r.country, r.score))
          baseWeights [])
        variationRange := variationRange
        baseWeights := baseWeights } := by
  unfold performSensitivityAnalysis
  rw [hb]
  rfl

/-- C4 (amended): for a base-weight key `k` that ends in `_weight` (and is
the last such key stripping to its criterion name), a successful sensitivity
sweep records, under the stripped criterion name, exactly the record of
`_analyze_criterion_sensitivity` for `k`; that record's variations are the
successful perturbed runs over the variation range in order; and each
perturbed run's weight dict agrees with the base dict on every key except
`k`, whose value is multiplied by `1 + variation`.  Keys not ending in
`_weight` are skipped by the sweep and receive no report entry. -/
theorem C4_perturbed_entry (sqrt : K → K) (data : List (String × List K))
    (baseWeights : List (String × K)) (countryNames : List String)
    (variationRange : List K) (rep : SensitivityReport K) (k : String)
    (hrep : performSensitivityAnalysis sqrt data baseWeights countryNames
        (some variationRange) = .ok rep)
    (hlast : lastWeightKey (stripWeightKey k) (baseWeights.map Prod.fst) = some k) :
    alookup (stripWeightKey k) rep.criterionSensitivity =
      some (analyzeCriterionSensitivity sqrt data baseWeights countryNames k
        variationRange rep.baselineRanking rep.baselineScores) ∧
    (analyzeCriterionSensitivity sqrt data baseWeights countryNames k
        variationRange rep.baselineRanking rep.baselineScores).variations =
      (variationRange.filterMap fun v =>
        (runVariation sqrt data baseWeights countryNames k
          rep.baselineRanking rep.baselineScores v).toOption).map (fun r => r.1) ∧
    (∀ v : K,
      alookup k (modifiedWeightsFor baseWeights k v) =
        (alookup k baseWeights).map (fun w => w * (1 + v)) ∧
      ∀ q, q ≠ k →
        alookup q (modifiedWeightsFor baseWeights k v) = alookup q baseWeights) := by
  cases hb : analyze sqrt data baseWeights countryNames none with
  | error e =>
    unfold performSensitivityAnalysis at hrep
    rw [hb] at hrep
    simp only [] at hrep
    cases hrep
  | ok out =>
    have heq := (performSensitivity_ok sqrt data baseWeights countryNames variationRange
      out hb).symm.trans hrep
    injection heq with heq
    subst heq
    refine ⟨?_, rfl, ?_⟩
    · dsimp only
      rw [buildEntries_alookup, hlast]
    · intro v
      exact ⟨alookup_modifiedWeightsFor_self baseWeights k v,
        fun q hq => alookup_modifiedWeightsFor_ne baseWeights k q v hq⟩

/-- A key that does not end in `_weight`, placed in the base weight dict. -/
def fooKey : String := r"foo"

/-- A valid weight dict with one ordinary weight key and one stray key. -/
def baseWeightsFoo : List (String × ℚ) := [(jobProspects ++ weightSuffix, 1), (fooKey, 1)]

theorem validate_foo : validateInputs dataTwoCrit baseWeightsFoo namesAB = .ok () := by
  apply (validateInputs_ok_iff _ _ _).mpr
  refine ⟨by simp [dataTwoCrit], by simp [baseWeightsFoo], by simp [namesAB], ?_, ?_, ?_⟩
  · intro p hp
    simp only [dataTwoCrit, List.mem_cons, List.not_mem_nil, or_false] at hp
    rcases hp with rfl | rfl <;> simp [namesAB]
  · intro p hp
    simp only [baseWeightsFoo, List.mem_cons, List.not_mem_nil, or_false] at hp
    rcases hp with rfl | rfl <;> norm_num
  · decide

/-- C4 counterexample: with stray key `foo` in the base weights the sweep
still succeeds, but the report holds exactly one criterion entry — for
`job_prospects` — and none for `foo` (nor for its stripped name, which is
`foo` itself): a base-weight key not ending in `_weight` is skipped by the
`continue`, no perturbed run is performed for it, and no entry records it,
refuting the claim's "every weight key present in the base weight set". -/
theorem C4_counterexample :
    ∃ rep : SensitivityReport ℚ,
      performSensitivityAnalysis sqrtZeroQ dataTwoCrit baseWeightsFoo namesAB (some [0]) =
        .ok rep ∧
      fooKey ∈ baseWeightsFoo.map Prod.fst ∧
      rep.criterionSensitivity.map Prod.fst = [jobProspects] ∧
      alookup fooKey rep.criterionSensitivity = none ∧
      alookup (stripWeightKey fooKey) rep.criterionSensitivity = none := by
  have hok := analyze_isOk_of_valid sqrtZeroQ dataTwoCrit baseWeightsFoo namesAB none validate_foo
  cases hb : analyze sqrtZeroQ dataTwoCrit baseWeightsFoo namesAB none with
  | error e =>
    rw [hb] at hok
    simp [Except.isOk, Except.toBool] at hok
  | ok out =>
    have h := performSensitivity_ok sqrtZeroQ dataTwoCrit baseWeightsFoo namesAB [0] out hb
    have hend1 : strEndsWith (jobProspects ++ weightSuffix) weightSuffix = true := by decide
    have hend2 : strEndsWith fooKey weightSuffix = false := by decide
    have hstrip1 : stripWeightKey (jobProspects ++ weightSuffix) = jobProspects := by decide
    have hstrip2 : stripWeightKey fooKey = fooKey := by decide
    have hE : ∀ (br : List String) (bs : List (String × ℚ)),
        buildEntries sqrtZeroQ dataTwoCrit baseWeightsFoo namesAB [0] br bs baseWeightsFoo [] =
          [(jobProspects, analyzeCriterionSensitivity sqrtZeroQ dataTwoCrit baseWeightsFoo
            namesAB (jobProspects ++ weightSuffix) [0] br bs)] := by
      intro br bs
      simp only [baseWeightsFoo, buildEntries, hend1, hend2, hstrip1, if_true,
        Bool.false_eq_true, if_false, dictInsert]
    refine ⟨_, h, by decide, ?_, ?_, ?_⟩
    · dsimp only
      rw [hE]
      rfl
    · dsimp only
      rw [hE, alookup]
      rw [if_neg (by decide : ¬jobProspects = fooKey)]
      rfl
    · dsimp only
      rw [hstrip2, hE, alookup]
      rw [if_neg (by decide : ¬jobProspects = fooKey)]
      rfl

/-- The sensitivity report of the concrete job-prospects-only sweep. -/
def repJob : SensitivityReport ℚ :=
  { baselineRanking := outTwoCrit.map fun r => r.country
    baselineScores := outTwoCrit.map fun r => (r.country, r.score)
    topCountry := (outTwoCrit.map fun r => r.country).head?
    criterionSensitivity := buildEntries sqrtZeroQ dataTwoCrit weightsJobOnly namesAB [0]
      (outTwoCrit.map fun r => r.country) (outTwoCrit.map fun r => (r.country, r.score))
      weightsJobOnly []
    overall := calculateOverallSensitivity (buildEntries sqrtZeroQ dataTwoCrit weightsJobOnly
      namesAB [0] (outTwoCrit.map fun r => r.country)
      (outTwoCrit.map fun r => (r.country, r.score)) weightsJobOnly [])
    variationRange := [0]
    baseWeights := weightsJobOnly }

theorem perfJob_eval :
    performSensitivityAnalysis sqrtZeroQ dataTwoCrit weightsJobOnly namesAB (some [0]) =
      .ok repJob :=
  performSensitivity_ok sqrtZeroQ dataTwoCrit weightsJobOnly namesAB [0] outTwoCrit
    analyzeTwoCrit_eval

/-- Witness for C4 at the concrete job-prospects-only sweep. -/
theorem C4_witness :
    alookup (stripWeightKey (jobProspects ++ weightSuffix)) repJob.criterionSensitivity =
      some (analyzeCriterionSensitivity sqrtZeroQ dataTwoCrit weightsJobOnly namesAB
        (jobProspects ++ weightSuffix) [0] repJob.baselineRanking repJob.baselineScores) ∧
    (analyzeCriterionSensitivity sqrtZeroQ dataTwoCrit weightsJobOnly namesAB
        (jobProspects ++ weightSuffix) [0] repJob.baselineRanking
        repJob.baselineScores).variations =
      (([0] : List ℚ).filterMap fun v =>
        (runVariation sqrtZeroQ dataTwoCrit weightsJobOnly namesAB
          (jobProspects ++ weightSuffix) repJob.baselineRanking
          repJob.baselineScores v).toOption).map (fun r => r.1) ∧
    (∀ v : ℚ,
      alookup (jobProspects ++ weightSuffix)
          (modifiedWeightsFor weightsJobOnly (jobProspects ++ weightSuffix) v) =
        (alookup (jobProspects ++ weightSuffix) weightsJobOnly).map (fun w => w * (1 + v)) ∧
      ∀ q, q ≠ jobProspects ++ weightSuffix →
        alookup q (modifiedWeightsFor weightsJobOnly (jobProspects ++ weightSuffix) v) =
          alookup q weightsJobOnly) :=
  C4_perturbed_entry sqrtZeroQ dataTwoCrit weightsJobOnly namesAB [0] repJob
    (jobProspects ++ weightSuffix) perfJob_eval (by decide)

/-! ### C7 — failed variations are skipped and the sweep continues -/

theorem filterMap_toOption_filter_isOk {ε β : Type*} (f : α → Except ε β) (l : List α) :
    l.filterMap (fun v => (f v).toOption) =
      (l.filter fun v => (f v).isOk).filterMap fun v => (f v).toOption := by
  induction l with
  | nil => rfl
  | cons a l ih =>
    cases hf : f a with
    | error e =>
      have h1 : (f a).toOption = none := by rw [hf]; rfl
      have h2 : (f a).isOk = false := by rw [hf]; rfl
      simp [List.filterMap_cons, List.filter_cons, h1, h2, ih]
    | ok b =>
      have h1 : (f a).toOption = some b := by rw [hf]; rfl
      have h2 : (f a).isOk = true := by rw [hf]; rfl
      simp [List.filterMap_cons, List.filter_cons, h1, h2, ih]

theorem length_filterMap_toOption {ε β : Type*} (f : α → Except ε β) (l : List α) :
    (l.filterMap fun v => (f v).toOption).length = l.countP fun v => (f v).isOk := by
  induction l with
  | nil => rfl
  | cons a l ih =>
    cases hf : f a with
    | error e =>
      have h1 : (f a).toOption = none := by rw [hf]; rfl
      have h2 : (f a).isOk = false := by rw [hf]; rfl
      simp [List.filterMap_cons, List.countP_cons, h1, h2, ih]
    | ok b =>
      have h1 : (f a).toOption = some b := by rw [hf]; rfl
      have h2 : (f a).isOk = true := by rw [hf]; rfl
      simp [List.filterMap_cons, List.countP_cons, h1, h2, ih]

/-- C7: a variation whose perturbed run fails contributes nothing — the
criterion record (variation list and every aggregate metric) is exactly the
record computed from the successful variations alone, the number of
variation records equals the number of successful runs, and whenever the
baseline run succeeds the sweep still produces the full report, with an
entry for every `_weight` key of the base weight dict. -/
theorem C7_skip_and_continue (sqrt : K → K) (data : List (String × List K))
    (baseWeights : List (String × K)) (countryNames : List String)
    (variationRange : List K) (weightName : String)
    (baselineRanking : List String) (baselineScores : List (String × K)) :
    analyzeCriterionSensitivity sqrt data baseWeights countryNames weightName
        variationRange baselineRanking baselineScores =
      analyzeCriterionSensitivity sqrt data baseWeights countryNames weightName
        (variationRange.filter fun v => (runVariation sqrt data baseWeights countryNames
          weightName baselineRanking baselineScores v).isOk) baselineRanking baselineScores ∧
    (analyzeCriterionSensitivity sqrt data baseWeights countryNames weightName
        variationRange baselineRanking baselineScores).variations.length =
      (variationRange.countP fun v => (runVariation sqrt data baseWeights countryNames
        weightName baselineRanking baselineScores v).isOk) ∧
    (∀ out, analyze sqrt data baseWeights countryNames none = .ok out →
      ∃ rep, performSensitivityAnalysis sqrt data baseWeights countryNames
          (some variationRange) = .ok rep ∧
        ∀ k, lastWeightKey (stripWeightKey k) (baseWeights.map Prod.fst) = some k →
          alookup (stripWeightKey k) rep.criterionSensitivity =
            some (analyzeCriterionSensitivity sqrt data baseWeights countryNames k
              variationRange rep.baselineRanking rep.baselineScores)) := by
  have hruns := filterMap_toOption_filter_isOk
    (fun v => runVariation sqrt data baseWeights countryNames weightName
      baselineRanking baselineScores v) variationRange
  refine ⟨?_, ?_, ?_⟩
  · simp only [analyzeCriterionSensitivity, hruns]
  · simp only [analyzeCriterionSensitivity, List.length_map]
    exact length_filterMap_toOption _ variationRange
  · intro out hb
    refine ⟨_, performSensitivity_ok sqrt data baseWeights countryNames variationRange out hb,
      ?_⟩
    intro k hk
    dsimp only
    rw [buildEntries_alookup, hk]

/-! ### C10 — `SAWService.analyze` against `SAWAnalyzer.analyze` -/

theorem minMaxNormalizeD_eq (values : List K) (ct : CriteriaType) :
    minMaxNormalizeD values ct = minMaxNormalize values ct := by
  cases values with
  | nil => simp [minMaxNormalizeD, minMaxNormalize, listMax, listMin]
  | cons a l =>
    rw [minMaxNormalizeD, if_neg (List.cons_ne_nil a l)]
    rfl

theorem normalizeDataset_ok_eq :
    ∀ (data : List (String × List K)) (dct : List (String × CriteriaType))
      (nd : List (String × List K)),
      normalizeDataset data dct = .ok nd →
      nd = data.map fun c =>
        (c.1, minMaxNormalize c.2 ((alookup c.1 dct).getD .benefit)) := by
  intro data
  induction data with
  | nil =>
    intro dct nd h
    simp only [normalizeDataset] at h
    injection h with h
    rw [← h]
    rfl
  | cons c rest ih =>
    intro dct nd h
    cases halo : alookup c.1 dct with
    | none =>
      simp only [normalizeDataset, halo] at h
      cases h
    | some ct =>
      cases hrest : normalizeDataset rest dct with
      | error e =>
        simp only [normalizeDataset, halo, hrest] at h
        cases h
      | ok nd' =>
        simp only [normalizeDataset, halo, hrest] at h
        injection h with h
        subst h
        rw [List.map_cons, halo, ih dct nd' hrest]
        simp only [Option.getD_some, minMaxNormalizeD_eq]

theorem preprocessData_id : ∀ (data : List (String × List K)),
    (∀ c ∈ data, handleOutliers c.2 = c.2) → preprocessData data = data := by
  intro data
  induction data with
  | nil => intro _; rfl
  | cons c rest ih =>
    intro hcap
    simp only [preprocessData, List.map_cons] at ih ⊢
    rw [hcap c (List.mem_cons_self c rest), ih fun d hd => hcap d (List.mem_cons_of_mem c hd)]

theorem sorted_head_listMax (rs : List (RawResult K)) (s₀ : RawResult K)
    (tl : List (RawResult K))
    (hs : sortDescBy (fun r : RawResult K => r.score) rs = s₀ :: tl) :
    listMax (rs.map fun r => r.score) = s₀.score := by
  have hne : rs ≠ [] := by
    intro h
    rw [h] at hs
    simp [sortDescBy] at hs
  have hmapne : rs.map (fun r : RawResult K => r.score) ≠ [] := by
    intro h
    rw [List.map_eq_nil] at h
    exact hne h
  apply le_antisymm
  · obtain ⟨r, hr, hre⟩ := List.mem_map.mp (listMax_mem hmapne)
    rw [← hre]
    exact sorted_head_ge _ rs s₀ tl hs r ((mem_sortDescBy _).mpr hr)
  · exact le_listMax (List.mem_map.mpr
      ⟨s₀, (mem_sortDescBy _).mp (hs ▸ List.mem_cons_self s₀ tl), rfl⟩)

/-- C10 (amended): if the IQR capping of `SAWService._preprocess_data` is
the identity on every criterion's values and both runs succeed, the two SAW
implementations return equal result lists.  Without that condition equality
can fail — capping may change the normalized values, as in the
counterexample — though capping alone does not force disagreement (capped
and raw values can min-max normalize identically). -/
theorem C10_no_capping_agreement (sqrt : K → K) (data : List (String × List K))
    (weights : List (String × K)) (countryNames : List String)
    (out1 out2 : List (DecisionResult K))
    (hcap : ∀ c ∈ data, handleOutliers c.2 = c.2)
    (h1 : analyze sqrt data weights countryNames none = .ok out1)
    (h2 : sawAnalyzerAnalyze data weights countryNames = .ok out2) :
    out1 = out2 := by
  unfold sawAnalyzerAnalyze at h2
  split_ifs at h2 with hempty hmis
  cases hnd : normalizeDataset data defaultCriteriaTypes with
  | error e =>
    simp only [hnd] at h2
    cases h2
  | ok nd =>
    simp only [hnd] at h2
    push_neg at hempty
    obtain ⟨hdne, hwne, hnne⟩ := hempty
    set rs := calculateWeightedScores nd weights countryNames with hrs
    have hlen : rs.length = countryNames.length := cws_length _ _ _
    have hrsne : rs ≠ [] := by
      intro hnil
      rw [hnil] at hlen
      exact hnne (List.length_eq_zero.mp hlen.symm)
    have hsne : sortDescBy (fun r : RawResult K => r.score) rs ≠ [] := by
      intro hnil
      have hl := sortDescBy_length (fun r : RawResult K => r.score) rs
      rw [hnil] at hl
      exact hrsne (List.length_eq_zero.mp hl.symm)
    obtain ⟨s₀, tl, hs⟩ := List.exists_cons_of_ne_nil hsne
    have hmax : listMax (rs.map fun r => r.score) = s₀.score := sorted_head_listMax rs s₀ tl hs
    rw [if_neg hrsne, hmax] at h2
    by_cases h0 : s₀.score = 0
    · rw [if_pos h0] at h2
      cases h2
    · rw [if_neg h0] at h2
      injection h2 with h2
      cases hval : validateInputs data weights countryNames with
      | error e => rw [analyze, hval] at h1; cases h1
      | ok u =>
        cases u
        rw [analyze_ok_eq sqrt data weights countryNames none hval] at h1
        injection h1 with h1
        have hpre : preprocessData data = data := preprocessData_id data hcap
        have hnorm : normalizeData sqrt data defaultConfig = nd := by
          rw [normalizeDataset_ok_eq data defaultCriteriaTypes nd hnd]
          rfl
        have hraw : rawResults sqrt data weights countryNames none = rs := by
          rw [rawResults]
          rw [show (none : Option NormalizationConfig).getD defaultConfig = defaultConfig
            from rfl, hpre, hnorm]
        have hguard : maxScoreGuard rs = s₀.score := by
          have hg : maxScoreGuard rs = if s₀.score = 0 then 1 else s₀.score := by
            rw [maxScoreGuard, hs]
            rfl
          rw [hg, if_neg h0]
        rw [← h1, ← h2, hraw, postProcess_eq, hguard]

/-- Data with one outlier value: the IQR preprocessing of `SAWService` caps
`100` down to `65.125`, while `SAWAnalyzer` normalizes the raw values. -/
def dataOutlier : List (String × List ℚ) := [(jobProspects, [0, 1, 2, 100])]

def namesABCD : List String := [countryA, countryB, countryC, countryD]

theorem validate_outlier : validateInputs dataOutlier weightsJobOnly namesABCD = .ok () := by
  apply (validateInputs_ok_iff _ _ _).mpr
  refine ⟨by simp [dataOutlier], by simp [weightsJobOnly], by simp [namesABCD], ?_, ?_, ?_⟩
  · intro p hp
    simp only [dataOutlier, List.mem_cons, List.not_mem_nil, or_false] at hp
    subst hp
    simp [namesABCD]
  · intro p hp
    simp only [weightsJobOnly, List.mem_cons, List.not_mem_nil, or_false] at hp
    subst hp
    norm_num
  · decide

theorem analyzeOutlier_eval :
    analyze sqrtZeroQ dataOutlier weightsJobOnly namesABCD none =
      .ok [{ country := countryD, score := 1, rank := 1, percentage := 100,
             criteriaScores := [(jobProspects, 1)] },
           { country := countryC, score := 307/10000, rank := 2, percentage := 307/100,
             criteriaScores := [(jobProspects, 16/521)] },
           { country := countryB, score := 154/10000, rank := 3, percentage := 154/100,
             criteriaScores := [(jobProspects, 8/521)] },
           { country := countryA, score := 0, rank := 4, percentage := 0,
             criteriaScores := [(jobProspects, 0)] }] := by
  have hpre : preprocessData dataOutlier = [(jobProspects, [(0 : ℚ), 1, 2, 521/8])] := by
    simp only [preprocessData, dataOutlier, List.map_cons, List.map_nil]
    norm_num [handleOutliers, percentile, sortAsc, insertAsc, List.getD_cons_zero,
      List.getD_cons_succ, show Int.toNat 2 = 2 from rfl, show Int.toNat 0 = 0 from rfl,
      List.getD_nil]
  have halo : alookup jobProspects defaultCriteriaTypes = some .benefit := by decide
  have hnorm : normalizeData sqrtZeroQ [(jobProspects, [(0 : ℚ), 1, 2, 521/8])]
      defaultConfig = [(jobProspects, [0, 8/521, 16/521, 1])] := by
    simp only [normalizeData, List.map_cons, List.map_nil, defaultConfig, halo,
      Option.getD_some]
    norm_num [minMaxNormalize, listMin, listMax]
    decide
  have hlook : alookup (jobProspects ++ weightSuffix) weightsJobOnly = some 1 := by decide
  have hrange : List.range namesABCD.length = [0, 1, 2, 3] := rfl
  have hws : calculateWeightedScores [(jobProspects, [(0 : ℚ), 8/521, 16/521, 1])]
      weightsJobOnly namesABCD =
      [{ country := countryA, score := 0, criteriaScores := [(jobProspects, 0)] },
       { country := countryB, score := 8/521, criteriaScores := [(jobProspects, 8/521)] },
       { country := countryC, score := 16/521, criteriaScores := [(jobProspects, 16/521)] },
       { country := countryD, score := 1, criteriaScores := [(jobProspects, 1)] }] := by
    simp only [calculateWeightedScores, criterionContribs, hrange, List.map_cons, List.map_nil,
      List.filterMap_cons, List.filterMap_nil, hlook, Option.map_some',
      List.sum_cons, List.sum_nil]
    norm_num [namesABCD, List.getD]
  have hsort : sortDescBy (fun r : RawResult ℚ => r.score)
      [{ country := countryA, score := 0, criteriaScores := [(jobProspects, 0)] },
       { country := countryB, score := 8/521, criteriaScores := [(jobProspects, 8/521)] },
       { country := countryC, score := 16/521, criteriaScores := [(jobProspects, 16/521)] },
       { country := countryD, score := 1, criteriaScores := [(jobProspects, 1)] }] =
      [{ country := countryD, score := 1, criteriaScores := [(jobProspects, 1)] },
       { country := countryC, score := 16/521, criteriaScores := [(jobProspects, 16/521)] },
       { country := countryB, score := 8/521, criteriaScores := [(jobProspects, 8/521)] },
       { country := countryA, score := 0, criteriaScores := [(jobProspects, 0)] }] := by
    norm_num [sortDescBy, insertDescBy]
  have hr1 : pyRound 4 ((1 : ℚ)) = 1 := pyRound_int 4 1 1 (by norm_num)
  have hr0 : pyRound 4 ((0 : ℚ)) = 0 := pyRound_int 4 0 0 (by norm_num)
  have hr100 : pyRound 2 ((100 : ℚ)) = 100 := pyRound_int 2 100 100 (by norm_num)
  have hr00 : pyRound 2 ((0 : ℚ)) = 0 := pyRound_int 2 0 0 (by norm_num)
  have hrC : pyRound 4 ((16 : ℚ)/521) = 307/10000 := by
    rw [pyRound_eq_low 4 ((16 : ℚ)/521) 307 (by norm_num [Int.floor_eq_iff]) (by norm_num)]
    norm_num
  have hrB : pyRound 4 ((8 : ℚ)/521) = 154/10000 := by
    rw [pyRound_eq_high 4 ((8 : ℚ)/521) 153 (by norm_num [Int.floor_eq_iff]) (by norm_num)]
    norm_num
  have hrCp : pyRound 2 ((1600 : ℚ)/521) = 307/100 := by
    rw [pyRound_eq_low 2 ((1600 : ℚ)/521) 307 (by norm_num [Int.floor_eq_iff]) (by norm_num)]
    norm_num
  have hrBp : pyRound 2 ((800 : ℚ)/521) = 154/100 := by
    rw [pyRound_eq_high 2 ((800 : ℚ)/521) 153 (by norm_num [Int.floor_eq_iff]) (by norm_num)]
    norm_num
  have hrange' : List.range' 1 4 = [1, 2, 3, 4] := rfl
  simp only [analyze, validate_outlier, Option.getD_none, hpre, hnorm, hws,
    postProcessResults, hsort, List.head?_cons, List.length_cons, List.length_nil, hrange',
    List.zip_cons_cons, List.zip_nil_right, List.map_cons, List.map_nil]
  norm_num [hr1, hr0, hr100, hr00, hrC, hrB, hrCp, hrBp]

theorem sawAnalyzerOutlier_eval :
    sawAnalyzerAnalyze dataOutlier weightsJobOnly namesABCD =
      .ok [{ country := countryD, score := 1, rank := 1, percentage := 100,
             criteriaScores := [(jobProspects, 1)] },
           { country := countryC, score := 1/50, rank := 2, percentage := 2,
             criteriaScores := [(jobProspects, 1/50)] },
           { country := countryB, score := 1/100, rank := 3, percentage := 1,
             criteriaScores := [(jobProspects, 1/100)] },
           { country := countryA, score := 0, rank := 4, percentage := 0,
             criteriaScores := [(jobProspects, 0)] }] := by
  have halo : alookup jobProspects defaultCriteriaTypes = some .benefit := by decide
  have hnd : normalizeDataset dataOutlier defaultCriteriaTypes =
      .ok [(jobProspects, [(0 : ℚ), 1/100, 1/50, 1])] := by
    simp only [dataOutlier, normalizeDataset, halo]
    norm_num [minMaxNormalizeD, listMin, listMax,
      show ¬(([0, 1, 2, 100] : List ℚ) = []) by decide,
      show ¬CriteriaType.benefit = CriteriaType.cost by decide]
  have hlook : alookup (jobProspects ++ weightSuffix) weightsJobOnly = some 1 := by decide
  have hrange : List.range namesABCD.length = [0, 1, 2, 3] := rfl
  have hws : calculateWeightedScores [(jobProspects, [(0 : ℚ), 1/100, 1/50, 1])]
      weightsJobOnly namesABCD =
      [{ country := countryA, score := 0, criteriaScores := [(jobProspects, 0)] },
       { country := countryB, score := 1/100, criteriaScores := [(jobProspects, 1/100)] },
       { country := countryC, score := 1/50, criteriaScores := [(jobProspects, 1/50)] },
       { country := countryD, score := 1, criteriaScores := [(jobProspects, 1)] }] := by
    simp only [calculateWeightedScores, criterionContribs, hrange, List.map_cons, List.map_nil,
      List.filterMap_cons, List.filterMap_nil, hlook, Option.map_some',
      List.sum_cons, List.sum_nil]
    norm_num [namesABCD, List.getD]
  have hsort : sortDescBy (fun r : RawResult ℚ => r.score)
      [{ country := countryA, score := 0, criteriaScores := [(jobProspects, 0)] },
       { country := countryB, score := 1/100, criteriaScores := [(jobProspects, 1/100)] },
       { country := countryC, score := 1/50, criteriaScores := [(jobProspects, 1/50)] },
       { country := countryD, score := 1, criteriaScores := [(jobProspects, 1)] }] =
      [{ country := countryD, score := 1, criteriaScores := [(jobProspects, 1)] },
       { country := countryC, score := 1/50, criteriaScores := [(jobProspects, 1/50)] },
       { country := countryB, score := 1/100, criteriaScores := [(jobProspects, 1/100)] },
       { country := countryA, score := 0, criteriaScores := [(jobProspects, 0)] }] := by
    norm_num [sortDescBy, insertDescBy]
  have hmax : listMax
      (([{ country := countryA, score := 0, criteriaScores := [(jobProspects, 0)] },
         { country := countryB, score := 1/100, criteriaScores := [(jobProspects, 1/100)] },
         { country := countryC, score := 1/50, criteriaScores := [(jobProspects, 1/50)] },
         { country := countryD, score := 1, criteriaScores := [(jobProspects, 1)] }] :
        List (RawResult ℚ)).map fun r => r.score) = 1 := by
    norm_num [listMax]
  have hr1 : pyRound 4 ((1 : ℚ)) = 1 := pyRound_int 4 1 1 (by norm_num)
  have hr0 : pyRound 4 ((0 : ℚ)) = 0 := pyRound_int 4 0 0 (by norm_num)
  have hr100 : pyRound 2 ((100 : ℚ)) = 100 := pyRound_int 2 100 100 (by norm_num)
  have hr00 : pyRound 2 ((0 : ℚ)) = 0 := pyRound_int 2 0 0 (by norm_num)
  have hr2 : pyRound 2 ((2 : ℚ)) = 2 := pyRound_int 2 2 2 (by norm_num)
  have hr1p : pyRound 2 ((1 : ℚ)) = 1 := pyRound_int 2 1 1 (by norm_num)
  have hrB : pyRound 4 ((1 : ℚ)/100) = 1/100 := by
    rw [pyRound_eq_low 4 ((1 : ℚ)/100) 100 (by norm_num [Int.floor_eq_iff]) (by norm_num)]
    norm_num
  have hrC : pyRound 4 ((1 : ℚ)/50) = 1/50 := by
    rw [pyRound_eq_low 4 ((1 : ℚ)/50) 200 (by norm_num [Int.floor_eq_iff]) (by norm_num)]
    norm_num
  have hrange' : List.range' 1 4 = [1, 2, 3, 4] := rfl
  unfold sawAnalyzerAnalyze
  rw [if_neg (by decide), if_neg (by decide)]
  simp only [hnd]
  rw [hws, hsort]
  rw [if_neg (List.cons_ne_nil _ _), hmax]
  rw [if_neg (by norm_num : ¬(1 : ℚ) = 0)]
  simp only [List.length_cons, List.length_nil, hrange', List.zip_cons_cons,
    List.zip_nil_right, List.map_cons, List.map_nil]
  norm_num [hr1, hr0, hr100, hr00, hr2, hr1p, hrB, hrC]

/-- C10 counterexample: on `job_prospects = [0, 1, 2, 100]` both
implementations succeed, yet they disagree — the service first caps the
outlier `100` down to `q3 + 1.5·IQR = 65.125` and so normalizes `1` to
`8/521` (score rounding to `0.0154`), while the analyzer normalizes the raw
values and gives `1/100 = 0.01`. -/
theorem C10_counterexample :
    ∃ out1 out2 : List (DecisionResult ℚ),
      analyze sqrtZeroQ dataOutlier weightsJobOnly namesABCD none = .ok out1 ∧
      sawAnalyzerAnalyze dataOutlier weightsJobOnly namesABCD = .ok out2 ∧
      out1 ≠ out2 ∧
      ∃ r1 ∈ out1, ∃ r2 ∈ out2, r1.country = r2.country ∧ r1.score ≠ r2.score := by
  refine ⟨_, _, analyzeOutlier_eval, sawAnalyzerOutlier_eval, ?_, ?_⟩
  · intro h
    simp only [List.cons.injEq, DecisionResult.mk.injEq] at h
    norm_num at h
  · refine ⟨{ country := countryB, score := 154/10000, rank := 3, percentage := 154/100,
               criteriaScores := [(jobProspects, 8/521)] },
      by simp,
      { country := countryB, score := 1/100, rank := 3, percentage := 1,
        criteriaScores := [(jobProspects, 1/100)] },
      by simp, rfl, by norm_num⟩

theorem sawAnalyzerTwoCrit_eval :
    sawAnalyzerAnalyze dataTwoCrit weightsJobOnly namesAB = .ok outTwoCrit := by
  have halo1 : alookup jobProspects defaultCriteriaTypes = some .benefit := by decide
  have halo2 : alookup climateScore defaultCriteriaTypes = some .benefit := by decide
  have hnd : normalizeDataset dataTwoCrit defaultCriteriaTypes =
      .ok [(jobProspects, [(0 : ℚ), 1]), (climateScore, [0, 1])] := by
    simp only [dataTwoCrit, normalizeDataset, halo1, halo2]
    norm_num [minMaxNormalizeD, listMin, listMax,
      show ¬(([1, 2] : List ℚ) = []) by decide, show ¬(([3, 4] : List ℚ) = []) by decide,
      show ¬CriteriaType.benefit = CriteriaType.cost by decide]
  have hlook1 : alookup (jobProspects ++ weightSuffix) weightsJobOnly = some 1 := by decide
  have hlook2 : alookup (climateScore ++ weightSuffix) weightsJobOnly = none := by decide
  have hrange : List.range namesAB.length = [0, 1] := rfl
  have hws : calculateWeightedScores [(jobProspects, [(0 : ℚ), 1]), (climateScore, [0, 1])]
      weightsJobOnly namesAB =
      [{ country := countryA, score := 0, criteriaScores := [(jobProspects, 0)] },
       { country := countryB, score := 1, criteriaScores := [(jobProspects, 1)] }] := by
    simp only [calculateWeightedScores, criterionContribs, hrange, List.map_cons, List.map_nil,
      List.filterMap_cons, List.filterMap_nil, hlook1, hlook2, Option.map_some', Option.map_none,
      List.sum_cons, List.sum_nil]
    norm_num [namesAB, List.getD]
  have hsort : sortDescBy (fun r : RawResult ℚ => r.score)
      [{ country := countryA, score := 0, criteriaScores := [(jobProspects, 0)] },
       { country := countryB, score := 1, criteriaScores := [(jobProspects, 1)] }] =
      [{ country := countryB, score := 1, criteriaScores := [(jobProspects, 1)] },
       { country := countryA, score := 0, criteriaScores := [(jobProspects, 0)] }] := by
    norm_num [sortDescBy, insertDescBy]
  have hmax : listMax
      (([{ country := countryA, score := 0, criteriaScores := [(jobProspects, 0)] },
         { country := countryB, score := 1, criteriaScores := [(jobProspects, 1)] }] :
        List (RawResult ℚ)).map fun r => r.score) = 1 := by
    norm_num [listMax]
  have hr1 : pyRound 4 ((1 : ℚ)) = 1 := pyRound_int 4 1 1 (by norm_num)
  have hr0 : pyRound 4 ((0 : ℚ)) = 0 := pyRound_int 4 0 0 (by norm_num)
  have hr100 : pyRound 2 ((100 : ℚ)) = 100 := pyRound_int 2 100 100 (by norm_num)
  have hr00 : pyRound 2 ((0 : ℚ)) = 0 := pyRound_int 2 0 0 (by norm_num)
  have hrange' : List.range' 1 2 = [1, 2] := rfl
  unfold sawAnalyzerAnalyze
  rw [if_neg (by decide), if_neg (by decide)]
  simp only [hnd]
  rw [hws, hsort]
  rw [if_neg (List.cons_ne_nil _ _), hmax]
  rw [if_neg (by norm_num : ¬(1 : ℚ) = 0)]
  simp only [List.length_cons, List.length_nil, hrange', List.zip_cons_cons,
    List.zip_nil_right, List.map_cons, List.map_nil]
  norm_num [hr1, hr0, hr100, hr00, outTwoCrit]

/-- Witness for C10 at a capping-free input on which both implementations
succeed and agree. -/
theorem C10_witness :
    (∀ c ∈ dataTwoCrit, handleOutliers c.2 = c.2) ∧
    analyze sqrtZeroQ dataTwoCrit weightsJobOnly namesAB none = .ok outTwoCrit ∧
    sawAnalyzerAnalyze dataTwoCrit weightsJobOnly namesAB = .ok outTwoCrit ∧
    outTwoCrit = outTwoCrit := by
  have hcap : ∀ c ∈ dataTwoCrit, handleOutliers c.2 = c.2 := by
    intro c hc
    simp only [dataTwoCrit, List.mem_cons, List.not_mem_nil, or_false] at hc
    rcases hc with rfl | rfl <;> exact handleOutliers_pair _ _
  exact ⟨hcap, analyzeTwoCrit_eval, sawAnalyzerTwoCrit_eval,
    C10_no_capping_agreement sqrtZeroQ dataTwoCrit weightsJobOnly namesAB outTwoCrit outTwoCrit
      hcap analyzeTwoCrit_eval sawAnalyzerTwoCrit_eval⟩

end DSS
